import Mathlib

/-!
Shallow embedding of the layout verification and relayout engine of the
`elf-editor` repository (`src/structure.rs` and `src/transformer.rs`).

Machine integers (`u64`, `i64`) are modelled as `Nat`/`Int`.  Arithmetic that
the source performs with explicitly checked operations (`checked_add`,
`checked_sub`, `checked_add_signed`, `wrapping_sub` + overflow test) is
modelled with the corresponding explicit `% 2^64` / bound checks; plain `+`
on offsets is modelled as `Nat` addition (the non-overflowing regime).
A Rust panic (`assert!`, `expect`, out-of-bounds slice index) is modelled by
returning `none` from an `Option`-valued function.
-/

namespace ElfEditor

/-- Size of the `u64` value space, `2 ^ 64`. -/
def U64_SIZE : Nat := 2 ^ 64

/-- Size of the non-negative half of the `i64` value space, `2 ^ 63`. -/
def I64_HALF : Nat := 2 ^ 63

/-- Model of `u64::checked_add`: fails exactly when the mathematical sum does
not fit `u64` (arguments are `u64` values, hence `< 2 ^ 64`). -/
def checked_add (a b : Nat) : Option Nat :=
  if a + b < U64_SIZE then some (a + b) else none

/-- Model of `u64::checked_sub`: fails exactly when `b > a`. -/
def checked_sub (a b : Nat) : Option Nat :=
  if b ≤ a then some (a - b) else none

/-- Model of `u64::wrapping_sub` on `u64` values `a b < 2 ^ 64`. -/
def u64_wrapping_sub (a b : Nat) : Nat :=
  (a + U64_SIZE - b) % U64_SIZE

/-- Reinterpretation of a `u64` bit pattern as an `i64` value (`as i64`). -/
def u64_as_i64 (n : Nat) : Int :=
  if n < I64_HALF then (n : Int) else (n : Int) - (U64_SIZE : Int)

/-- Model of `u64::checked_add_signed`: succeeds exactly when `a + i` is
representable as a `u64`. -/
def checked_add_signed (a : Nat) (i : Int) : Option Nat :=
  if 0 ≤ (a : Int) + i ∧ (a : Int) + i < (U64_SIZE : Int) then
    some ((a : Int) + i).toNat
  else none

/-- Model of `fn strict_signed_diff(a: u64, b: u64) -> i64`
(src/transformer.rs:174-180): computes `a.wrapping_sub(b) as i64`, and panics
(modelled by `none`) when the overflow test `(a >= b) == (res < 0)` holds. -/
def strict_signed_diff (a b : Nat) : Option Int :=
  let res := u64_as_i64 (u64_wrapping_sub a b)
  if (b ≤ a) ↔ (res < 0) then none else some res

/-- Model of `u64::next_multiple_of` as implemented in the Rust standard
library: `match self % rhs { 0 => self, r => self + (rhs - r) }`.  The source
only calls it with `rhs > 1` (src/transformer.rs:389). -/
def next_multiple_of (n a : Nat) : Nat :=
  if n % a = 0 then n else n + (a - n % a)

/-- Model of `Iterator::position`: index of the first element satisfying the
predicate. -/
def position (p : α → Bool) : List α → Option Nat
  | [] => none
  | x :: l => if p x then some 0 else (position p l).map (· + 1)

/-- The word-size / byte-order context (`goblin::container::Ctx`), modelled by
the record sizes it induces through `size_with`: the serialized sizes of the
ELF header, one program header and one section header. -/
structure Ctx where
  headerSize : Nat
  phSize : Nat
  shSize : Nat
deriving DecidableEq, Repr, Inhabited

/-- Model of `goblin::elf::SectionHeader` (all fields `Nat`-valued). -/
structure SectionHeader where
  sh_name : Nat
  sh_type : Nat
  sh_flags : Nat
  sh_addr : Nat
  sh_offset : Nat
  sh_size : Nat
  sh_link : Nat
  sh_info : Nat
  sh_addralign : Nat
  sh_entsize : Nat
deriving DecidableEq, Repr, Inhabited

/-- Model of `goblin::elf::ProgramHeader`. -/
structure ProgramHeader where
  p_type : Nat
  p_flags : Nat
  p_offset : Nat
  p_vaddr : Nat
  p_paddr : Nat
  p_filesz : Nat
  p_memsz : Nat
  p_align : Nat
deriving DecidableEq, Repr, Inhabited

/-- Model of `goblin::elf::Header` (the fields of the ELF file header). -/
structure Header where
  e_ident : List Nat
  e_type : Nat
  e_machine : Nat
  e_version : Nat
  e_entry : Nat
  e_phoff : Nat
  e_shoff : Nat
  e_flags : Nat
  e_ehsize : Nat
  e_phentsize : Nat
  e_phnum : Nat
  e_shentsize : Nat
  e_shnum : Nat
  e_shstrndx : Nat
deriving DecidableEq, Repr, Inhabited

/-- The pieces of the parsed view (`goblin::elf::Elf`) that the verifier and
the transformer read. -/
structure ElfView where
  header : Header
  program_headers : List ProgramHeader
  section_headers : List SectionHeader
deriving DecidableEq, Repr, Inhabited

/-- Model of the caller-supplied section transformation
`Fn(&[u8], &SectionHeader, Ctx, &mut dyn io::Write) -> Option<u64>`.
The result pair is (returned value, bytes written to the output sink); the
closure cannot observe which sink it received, so the same pair describes
both the dry run (sink discards the bytes) and the real run. -/
abbrev Transformer := List Nat → SectionHeader → Ctx → Option Nat × List Nat

/-- The new size the dry run of the transformer yields for one section:
the reported size, or the old size when the transformer declines
(src/transformer.rs:378-382). -/
def dry_run_size (tf : Transformer) (bytes : List Nat) (ctx : Ctx)
    (h : SectionHeader) : Nat :=
  match (tf bytes h ctx).1 with
  | some new_size => new_size
  | none => h.sh_size

/-- The new offset chosen for a section whose alignment is `sh_addralign`
when the write cursor is at `vacant_at` (src/transformer.rs:386-390). -/
def relayout_offset (vacant_at : Nat) (h : SectionHeader) : Nat :=
  if h.sh_addralign ≤ 1 then vacant_at
  else next_multiple_of vacant_at h.sh_addralign

/-- Model of `struct SectionDimensions` (src/transformer.rs:208-211). -/
structure SectionDimensions where
  offset : Nat
  size : Nat
deriving DecidableEq, Repr, Inhabited

/-- Model of `struct ProgramHeaderUpdate` (src/transformer.rs:192-197); the
Rust field `end` is a Lean keyword, so it is called `end_` here. -/
structure ProgramHeaderUpdate where
  start : Bool
  end_ : Bool
deriving DecidableEq, Repr, Inhabited

/-- Model of `struct OutputProgramHeadersUpdater` (src/transformer.rs:214-221).
`meta` holds the original dimensions of each program header plus the update
flags; `output` the program header values being built.  The two lists have the
same length by construction and match by index. -/
structure OutputProgramHeadersUpdater where
  meta : List (SectionDimensions × ProgramHeaderUpdate)
  output : List ProgramHeader
deriving DecidableEq, Repr, Inhabited

/-- Model of `OutputProgramHeadersUpdater::new` (src/transformer.rs:226-242). -/
def OutputProgramHeadersUpdater.new (program_headers : List ProgramHeader) :
    OutputProgramHeadersUpdater where
  meta := program_headers.map fun s =>
    ({ offset := s.p_offset, size := s.p_filesz }, { start := false, end_ := false })
  output := program_headers

/-- Predicate of the first `position` search in `observe_file_section`: the
program header's recorded offset equals the section's old offset. -/
def phStartMatch (old_offset : Nat) (m : SectionDimensions × ProgramHeaderUpdate) :
    Bool :=
  m.1.offset == old_offset

/-- Predicate of the second `position` search in `observe_file_section`: the
program header's recorded end equals the section's old end. -/
def phEndMatch (old_end : Nat) (m : SectionDimensions × ProgramHeaderUpdate) :
    Bool :=
  m.1.offset + m.1.size == old_end

/-- First half of `observe_file_section` (src/transformer.rs:261-277): if some
program header's recorded offset equals the section's old offset, assert its
start flag is not yet set (panic modelled by `none`), set the flag and update
that program header's offset to the section's new offset. -/
def observe_start (self : OutputProgramHeadersUpdater)
    (old new : SectionDimensions) : Option OutputProgramHeadersUpdater :=
  match position (phStartMatch old.offset) self.meta with
  | none => some self
  | some i =>
    let m := self.meta.getD i default
    if m.2.start then none
    else
      some
        { meta := self.meta.set i (m.1, { m.2 with start := true })
          output := self.output.set i
            { self.output.getD i default with p_offset := new.offset } }

/-- Second half of `observe_file_section` (src/transformer.rs:279-310): if some
program header's recorded end equals the section's old end, assert its end
flag is not yet set, set it, recompute the file size as
`(new offset + new size) - p_offset` with checked arithmetic and adjust
`p_memsz` by the signed file-size delta; every `expect`/`assert!` failure is
modelled by `none`. -/
def observe_end (self : OutputProgramHeadersUpdater)
    (old new : SectionDimensions) : Option OutputProgramHeadersUpdater :=
  match position (phEndMatch (old.offset + old.size)) self.meta with
  | none => some self
  | some i =>
    let m := self.meta.getD i default
    if m.2.end_ then none
    else
      let ph := self.output.getD i default
      (checked_add new.offset new.size).bind fun new_end =>
        (checked_sub new_end ph.p_offset).bind fun new_filesz =>
          (strict_signed_diff new_filesz ph.p_filesz).bind fun size_adjustment =>
            (checked_add_signed ph.p_memsz size_adjustment).map fun new_memsz =>
              { meta := self.meta.set i (m.1, { m.2 with end_ := true })
                output := self.output.set i
                  { ph with p_filesz := new_filesz, p_memsz := new_memsz } }

/-- Model of `OutputProgramHeadersUpdater::observe_file_section`
(src/transformer.rs:249-311): the start-coincidence update followed by the
end-coincidence update. -/
def observe_file_section (self : OutputProgramHeadersUpdater)
    (old new : SectionDimensions) : Option OutputProgramHeadersUpdater :=
  (observe_start self old new).bind fun s1 => observe_end s1 old new

/-- Model of `OutputProgramHeadersUpdater::into_result`
(src/transformer.rs:313-337): asserts every program header has both flags set
(panic modelled by `none`) and returns the updated program headers. -/
def into_result (self : OutputProgramHeadersUpdater) : Option (List ProgramHeader) :=
  if self.meta.all fun m => m.2.start && m.2.end_ then some self.output else none

/-- Model of `struct ComputeShiftsResult` (src/transformer.rs:182-187). -/
structure ComputeShiftsResult where
  program_headers : List ProgramHeader
  section_headers : List SectionHeader
  section_headers_start : Nat
deriving DecidableEq, Repr, Inhabited

/-- The `while let` loop of `compute_shifts` (src/transformer.rs:377-412):
processes each remaining section header in order, carrying the write cursor
`vacant_at` and the program-header updater; returns the new section headers,
the final updater state and the final cursor value. -/
def compute_shifts_loop (tf : Transformer) (bytes : List Nat) (ctx : Ctx) :
    List SectionHeader → Nat → OutputProgramHeadersUpdater →
    Option (List SectionHeader × OutputProgramHeadersUpdater × Nat)
  | [], vacant_at, upd => some ([], upd, vacant_at)
  | h :: rest, vacant_at, upd =>
    let new_section_size := dry_run_size tf bytes ctx h
    let new_section_offset := relayout_offset vacant_at h
    let outH := { h with sh_offset := new_section_offset, sh_size := new_section_size }
    (observe_file_section upd
        { offset := h.sh_offset, size := h.sh_size }
        { offset := new_section_offset, size := new_section_size }).bind fun upd1 =>
      (compute_shifts_loop tf bytes ctx rest
          (new_section_offset + new_section_size) upd1).map
        fun r => (outH :: r.1, r.2.1, r.2.2)

/-- Model of `compute_shifts` (src/transformer.rs:345-419): empty section
array yields the empty plan with table start 0; otherwise the cursor starts at
the first array entry's `sh_offset`, the loop runs over the whole array, and
`into_result` finalizes the program headers. -/
def compute_shifts (bytes : List Nat) (input_program_headers : List ProgramHeader)
    (input_section_headers : List SectionHeader) (ctx : Ctx) (tf : Transformer) :
    Option ComputeShiftsResult :=
  match input_section_headers.head? with
  | none =>
    some { program_headers := [], section_headers := [], section_headers_start := 0 }
  | some first_section_header =>
    (compute_shifts_loop tf bytes ctx input_section_headers
        first_section_header.sh_offset
        (OutputProgramHeadersUpdater.new input_program_headers)).bind fun r =>
      (into_result r.2.1).map fun phs =>
        { program_headers := phs, section_headers := r.1,
          section_headers_start := r.2.2 }

/-- Loop of `fn add_padding` (src/transformer.rs:160-171), embedded with an
explicit structural bound (`fuel`) on the number of iterations: each pass
writes `min (target − cursor) chunk ≥ 1` zero bytes (for `chunk > 0`), so
`target − cursor` iterations always suffice and the `fuel = 0` base case is
never reached from the wrapper below. -/
def add_padding_go (chunk target_offset : Nat) : Nat → Nat → List (List Nat) × Nat
  | 0, written_up_to => ([], written_up_to)
  | fuel + 1, written_up_to =>
    if written_up_to < target_offset then
      let size := min (target_offset - written_up_to) chunk
      let r := add_padding_go chunk target_offset fuel (written_up_to + size)
      (List.replicate size 0 :: r.1, r.2)
    else ([], written_up_to)

/-- Model of `fn add_padding` (src/transformer.rs:152-172): starting from the
cursor `written_up_to`, repeatedly write a chunk of at most `chunk` zero bytes
until the cursor reaches `target_offset`.  Returns the list of chunks written
(one entry per `write_all` call) and the final cursor.  When the target is
behind the cursor the loop body never runs.  `chunk` is the value the source
computes as `size_of_val(&buf)`; the source loops forever when it is zero. -/
def add_padding (chunk : Nat) (target_offset : Nat) (written_up_to : Nat) :
    List (List Nat) × Nat :=
  add_padding_go chunk target_offset (target_offset - written_up_to) written_up_to

/-- The new ELF header the writer builds (src/transformer.rs:65-69): a clone
of the input header with `e_shoff` replaced by the plan's section-header-table
start. -/
def new_header (h : Header) (section_headers_start : Nat) : Header :=
  { h with e_shoff := section_headers_start }

/-- The per-section `while let` loop of `transform_elf_sections`
(src/transformer.rs:85-116): for each (input, planned) section-header pair,
pad up to the planned offset, then run the transformer for real; when it
declines, copy the section's original byte range verbatim (an out-of-range
slice panics, modelled by `none`).  The cursor is advanced only by
`add_padding`; the source does not advance it past the section content it
writes.  Returns the bytes written, the final cursor, and (as an observation)
the list of `(target_offset, cursor before the call)` pairs passed to
`add_padding`.  Mismatched list lengths model the two `assert_eq!` calls on
the exhausted iterators (src/transformer.rs:114-115). -/
def write_sections (tf : Transformer) (bytes : List Nat) (ctx : Ctx) (chunk : Nat) :
    List SectionHeader → List SectionHeader → Nat →
    Option (List Nat × Nat × List (Nat × Nat))
  | [], [], written_up_to => some ([], written_up_to, [])
  | inH :: inRest, outH :: outRest, written_up_to =>
    let pad := add_padding chunk outH.sh_offset written_up_to
    let produced := (tf bytes inH ctx).2
    let copied : Option (List Nat) :=
      match (tf bytes inH ctx).1 with
      | some _ => some []
      | none =>
        if inH.sh_offset + inH.sh_size ≤ bytes.length then
          some ((bytes.drop inH.sh_offset).take inH.sh_size)
        else none
    copied.bind fun verbatim =>
      (write_sections tf bytes ctx chunk inRest outRest pad.2).map fun r =>
        (pad.1.flatten ++ produced ++ verbatim ++ r.1, r.2.1,
          (outH.sh_offset, written_up_to) :: r.2.2)
  | _, _, _ => none

/-- Model of `transform_elf_sections` (src/transformer.rs:17-130).  The codec
(`scroll`/`goblin` serialization) is an external collaborator, passed in as the
encoding functions `encH`, `encP`, `encS`; `chunk` is the padding chunk size.
Returns the produced byte stream together with the list of
`(target_offset, cursor)` pairs passed to `add_padding`, or `none` when any
assertion fails.  The leading guard models the two serialization-buffer
assertions (src/transformer.rs:34-49); the `e_phoff` guard models
`assert_eq!(written_up_to, elf.header.e_phoff)` (src/transformer.rs:78). -/
def transform_elf_sections (encH : Header → List Nat)
    (encP : ProgramHeader → List Nat) (encS : SectionHeader → List Nat)
    (chunk : Nat) (bytes : List Nat) (elf : ElfView) (ctx : Ctx)
    (tf : Transformer) : Option (List Nat × List (Nat × Nat)) :=
  if ctx.phSize ≤ 256 ∧ ctx.shSize ≤ 256 then
    (compute_shifts bytes elf.program_headers elf.section_headers ctx tf).bind
      fun res =>
        let hdrOut := encH (new_header elf.header res.section_headers_start)
        let w0 := ctx.headerSize
        if w0 = elf.header.e_phoff then
          let phOut := (res.program_headers.map encP).flatten
          let w1 := w0 + res.program_headers.length * ctx.phSize
          (write_sections tf bytes ctx chunk elf.section_headers
              res.section_headers w1).bind fun r =>
            let padF := add_padding chunk res.section_headers_start r.2.1
            let shOut := (res.section_headers.map encS).flatten
            some (hdrOut ++ phOut ++ r.1 ++ padF.1.flatten ++ shOut,
              r.2.2 ++ [(res.section_headers_start, r.2.1)])
        else none
  else none

/-- Structured rendering of the error messages `verify_elf_structure` builds
with `format!` (src/structure.rs): each constructor corresponds to one message
and carries exactly the quantities interpolated into it (for the per-section
messages, the name is carried as the `sh_name` string-table index the source
resolves for display). -/
inductive StructuralError where
  | phOverlap (e_phoff size covered : Nat)
  | phGap (e_phoff size covered : Nat)
  | tooFewSections (count : Nat)
  | firstNotNull (sh_offset sh_size : Nat)
  | sectionOverlap (sh_name sh_offset sh_size covered : Nat)
  | sectionGap (sh_name sh_offset sh_size covered : Nat)
  | shTableOverlap (e_shoff size covered : Nat)
  | shTableGap (e_shoff size covered : Nat)
  | trailingBytes (covered file_size : Nat)
deriving DecidableEq, Repr

/-- Model of the gap test `bytes[a..b].iter().any(|&v| v != 0)` phrased as
"all bytes in `bytes[a..b]` are zero"; `none` models the panic of the Rust
slice index when `a > b` or `b > bytes.len()`. -/
def gap_all_zero (bytes : List Nat) (a b : Nat) : Option Bool :=
  if a ≤ b ∧ b ≤ bytes.length then
    some (((bytes.drop a).take (b - a)).all fun v => v == 0)
  else none

/-- The per-section loop of `verify_elf_structure` (src/structure.rs:94-126):
each section must start at or after `covered`, any gap must be all zero, and
`covered` advances to the section's end. -/
def verify_sections (bytes : List Nat) :
    Nat → List SectionHeader → Option (Except StructuralError Nat)
  | covered, [] => some (Except.ok covered)
  | covered, h :: rest =>
    if h.sh_offset < covered then
      some (Except.error
        (StructuralError.sectionOverlap h.sh_name h.sh_offset h.sh_size covered))
    else if covered < h.sh_offset then
      match gap_all_zero bytes covered h.sh_offset with
      | none => none
      | some false =>
        some (Except.error
          (StructuralError.sectionGap h.sh_name h.sh_offset h.sh_size covered))
      | some true => verify_sections bytes (h.sh_offset + h.sh_size) rest
    else verify_sections bytes (h.sh_offset + h.sh_size) rest

/-- Stage of `verify_elf_structure` after the per-section loop
(src/structure.rs:128-166): the section-header table must start at or after
`covered2` with at most an all-zero gap, and no non-zero bytes may follow its
end. -/
def verify_after_sections (bytes : List Nat) (elf : ElfView) (covered2 : Nat) :
    Option (Except StructuralError Unit) :=
  let sh_size := elf.header.e_shentsize * elf.header.e_shnum
  let afterSh : Option (Except StructuralError Nat) :=
    if elf.header.e_shoff < covered2 then
      some (Except.error
        (StructuralError.shTableOverlap elf.header.e_shoff sh_size covered2))
    else if covered2 < elf.header.e_shoff then
      match gap_all_zero bytes covered2 elf.header.e_shoff with
      | none => none
      | some false =>
        some (Except.error
          (StructuralError.shTableGap elf.header.e_shoff sh_size covered2))
      | some true => some (Except.ok (elf.header.e_shoff + sh_size))
    else some (Except.ok (elf.header.e_shoff + sh_size))
  match afterSh with
  | none => none
  | some (Except.error e) => some (Except.error e)
  | some (Except.ok covered3) =>
    match gap_all_zero bytes covered3 bytes.length with
    | none => none
    | some false =>
      some (Except.error (StructuralError.trailingBytes covered3 bytes.length))
    | some true => some (Except.ok ())

/-- Stage of `verify_elf_structure` after the program-header region
(src/structure.rs:73-126): at least two sections, the first being the null
entry, then the per-section loop, then `verify_after_sections`. -/
def verify_after_ph (bytes : List Nat) (elf : ElfView) (covered1 : Nat) :
    Option (Except StructuralError Unit) :=
  if elf.section_headers.length ≤ 1 then
    some (Except.error (StructuralError.tooFewSections elf.section_headers.length))
  else
    let first := elf.section_headers.headD default
    if first.sh_offset == 0 && first.sh_size == 0 then
      match verify_sections bytes covered1 elf.section_headers.tail with
      | none => none
      | some (Except.error e) => some (Except.error e)
      | some (Except.ok covered2) => verify_after_sections bytes elf covered2
    else
      some (Except.error (StructuralError.firstNotNull first.sh_offset first.sh_size))

/-- Model of `verify_elf_structure` (src/structure.rs:17-169).  Returns
`some (Except.ok ())` when the layout is accepted, `some (Except.error e)`
for a user-facing validation failure, and `none` when the source would panic
(slice index out of range in a gap check).  The sequential stages of the
source function are split into `verify_sections`, `verify_after_ph` and
`verify_after_sections`. -/
def verify_elf_structure (bytes : List Nat) (elf : ElfView) (ctx : Ctx) :
    Option (Except StructuralError Unit) :=
  let covered0 := ctx.headerSize
  let ph_size := elf.header.e_phentsize * elf.header.e_phnum
  let afterPh : Option (Except StructuralError Nat) :=
    if elf.header.e_phoff < covered0 then
      some (Except.error (StructuralError.phOverlap elf.header.e_phoff ph_size covered0))
    else if covered0 < elf.header.e_phoff then
      match gap_all_zero bytes covered0 elf.header.e_phoff with
      | none => none
      | some false =>
        some (Except.error (StructuralError.phGap elf.header.e_phoff ph_size covered0))
      | some true => some (Except.ok (elf.header.e_phoff + ph_size))
    else some (Except.ok (elf.header.e_phoff + ph_size))
  match afterPh with
  | none => none
  | some (Except.error e) => some (Except.error e)
  | some (Except.ok covered1) => verify_after_ph bytes elf covered1

/-- The gate of the modify pipeline (src/main.rs:36-46): `verify_elf_structure`
must succeed before `transform_elf_sections` runs; on a validation failure (or
a verifier panic) no output bytes are produced. -/
def modify_pipeline (encH : Header → List Nat) (encP : ProgramHeader → List Nat)
    (encS : SectionHeader → List Nat) (chunk : Nat) (bytes : List Nat)
    (elf : ElfView) (ctx : Ctx) (tf : Transformer) :
    Option (List Nat × List (Nat × Nat)) :=
  match verify_elf_structure bytes elf ctx with
  | some (Except.ok _) => transform_elf_sections encH encP encS chunk bytes elf ctx tf
  | _ => none

/-- Spec-side definition (from the spec's words, for refinement comparison
with `next_multiple_of` as used by `relayout_offset`): `o` is the smallest
multiple of the alignment `a` that is `≥ c`. -/
def spec_least_multiple_ge (a c o : Nat) : Prop :=
  a ∣ o ∧ c ≤ o ∧ ∀ m, a ∣ m → c ≤ m → o ≤ m

/-- Spec-side definition: the running write-cursor value after processing a
list of (planned) section headers, starting from `init`; each processed
section moves the cursor to its `sh_offset + sh_size`. -/
def cursor_after (init : Nat) (outs : List SectionHeader) : Nat :=
  outs.foldl (fun _ h => h.sh_offset + h.sh_size) init

/-- Spec-side definition (Bool-valued, for refinement comparison): the section
headers are already laid out exactly as the relayout rule would place them
when the cursor starts at `c` — each entry's offset is the rule's output and
the cursor advances past each entry. -/
def tightly_packed_from (c : Nat) : List SectionHeader → Bool
  | [] => true
  | h :: rest =>
    h.sh_offset == relayout_offset c h &&
      tightly_packed_from (h.sh_offset + h.sh_size) rest

/-- Invariant used for the no-op analysis: the updater still holds exactly the
original program headers, and its recorded dimensions are their offsets and
file sizes (as `OutputProgramHeadersUpdater.new` establishes). -/
def upd_pristine (phs : List ProgramHeader) (u : OutputProgramHeadersUpdater) : Prop :=
  u.output = phs ∧
    u.meta.map Prod.fst =
      phs.map fun p => { offset := p.p_offset, size := p.p_filesz }

/-- The all-decline transformation (`keep_all_sections_as_is` /
`noop_transformer` in the sources): returns no new size and writes nothing. -/
def tf_decline : Transformer := fun _ _ _ => (none, [])

/-- Concrete section-header fixture: only the name, offset, size and alignment
matter to the engine; the opaque fields are zero. -/
def sec (name offset size addralign : Nat) : SectionHeader :=
  { sh_name := name, sh_type := 0, sh_flags := 0, sh_addr := 0,
    sh_offset := offset, sh_size := size, sh_link := 0, sh_info := 0,
    sh_addralign := addralign, sh_entsize := 0 }

/-- Concrete program-header fixture with matching file and memory sizes. -/
def pheader (offset filesz : Nat) : ProgramHeader :=
  { p_type := 1, p_flags := 0, p_offset := offset, p_vaddr := 0, p_paddr := 0,
    p_filesz := filesz, p_memsz := filesz, p_align := 1 }

/-- A 64-bit little-endian context: 64-byte ELF header, 56-byte program
headers, 64-byte section headers. -/
def ctx64 : Ctx := { headerSize := 64, phSize := 56, shSize := 64 }

/-- Byte buffer of a concrete 196-byte file that passes the verifier: 64-byte
header, no program headers, a null section, one 4-byte section at offset 64,
and the section-header table (2 entries of 64 bytes) at offset 68. -/
def bytes196 : List Nat := List.replicate 196 0

/-- File header of the concrete 196-byte file. -/
def hdr196 : Header :=
  { e_ident := [], e_type := 0, e_machine := 0, e_version := 0, e_entry := 0,
    e_phoff := 64, e_shoff := 68, e_flags := 0, e_ehsize := 64,
    e_phentsize := 56, e_phnum := 0, e_shentsize := 64, e_shnum := 2,
    e_shstrndx := 0 }

/-- Parsed view of the concrete 196-byte file. -/
def view196 : ElfView :=
  { header := hdr196, program_headers := [],
    section_headers := [sec 0 0 0 0, sec 1 64 4 0] }

/-- File header whose program-header-table offset (100) lies beyond the end of
a 64-byte buffer, with zero program headers — the gap check then indexes the
byte buffer out of range. -/
def hdr_panic : Header :=
  { e_ident := [], e_type := 0, e_machine := 0, e_version := 0, e_entry := 0,
    e_phoff := 100, e_shoff := 0, e_flags := 0, e_ehsize := 64,
    e_phentsize := 56, e_phnum := 0, e_shentsize := 0, e_shnum := 0,
    e_shstrndx := 0 }

/-- Parsed view built on `hdr_panic`. -/
def view_panic : ElfView :=
  { header := hdr_panic, program_headers := [], section_headers := [] }

/-! ### Helper lemmas: lists, `position`, `List.set` -/

theorem getD_set_self {α : Type} (l : List α) (i : Nat) (a d : α)
    (h : i < l.length) : (l.set i a).getD i d = a := by
  induction l generalizing i with
  | nil => simp at h
  | cons x xs ih =>
    cases i with
    | zero => rfl
    | succ j => simpa using ih j (by simpa using h)

theorem getD_set_ne {α : Type} (l : List α) (i j : Nat) (a d : α)
    (h : i ≠ j) : (l.set i a).getD j d = l.getD j d := by
  induction l generalizing i j with
  | nil => cases i <;> rfl
  | cons x xs ih =>
    cases i with
    | zero => cases j with
      | zero => exact absurd rfl h
      | succ k => rfl
    | succ i' => cases j with
      | zero => rfl
      | succ k => simpa using ih i' k (by omega)

theorem set_getD_self_eq {α : Type} (l : List α) (i : Nat) (d : α)
    (h : i < l.length) : l.set i (l.getD i d) = l := by
  induction l generalizing i with
  | nil => simp at h
  | cons x xs ih =>
    cases i with
    | zero => rfl
    | succ j => simpa using ih j (by simpa using h)

theorem map_fst_set {α β : Type} (l : List (α × β)) (i : Nat) (a : α × β) :
    (l.set i a).map Prod.fst = (l.map Prod.fst).set i a.1 := by
  induction l generalizing i with
  | nil => rfl
  | cons x xs ih =>
    cases i with
    | zero => rfl
    | succ j => simp [ih j]

theorem position_lt {α : Type} (p : α → Bool) (l : List α) (i : Nat)
    (h : position p l = some i) : i < l.length := by
  induction l generalizing i with
  | nil => simp [position] at h
  | cons x xs ih =>
    by_cases hp : p x
    · simp [position, hp] at h
      simp only [List.length_cons]
      omega
    · simp [position, hp] at h
      obtain ⟨j, hj, rfl⟩ := h
      have := ih j hj
      simp only [List.length_cons]
      omega

theorem position_pred {α : Type} (p : α → Bool) (l : List α) (i : Nat) (d : α)
    (h : position p l = some i) : p (l.getD i d) = true := by
  induction l generalizing i with
  | nil => simp [position] at h
  | cons x xs ih =>
    by_cases hp : p x
    · simp [position, hp] at h
      subst h
      simpa using hp
    · simp [position, hp] at h
      obtain ⟨j, hj, rfl⟩ := h
      simpa using ih j hj

theorem position_fst_congr {α β : Type} (q : α → Bool)
    {l l' : List (α × β)} (h : l.map Prod.fst = l'.map Prod.fst) :
    position (fun m => q m.1) l = position (fun m => q m.1) l' := by
  induction l generalizing l' with
  | nil =>
    cases l' with
    | nil => rfl
    | cons y ys => simp at h
  | cons x xs ih =>
    cases l' with
    | nil => simp at h
    | cons y ys =>
      simp only [List.map_cons, List.cons.injEq] at h
      simp only [position, h.1, ih h.2]

/-! ### Helper lemmas: `add_padding` -/

theorem add_padding_back (chunk target w : Nat) (h : target ≤ w) :
    add_padding chunk target w = ([], w) := by
  unfold add_padding
  rw [show target - w = 0 by omega]
  rfl

theorem add_padding_go_spec (chunk : Nat) (hc : 0 < chunk) (target : Nat) :
    ∀ fuel w, target - w ≤ fuel →
      (add_padding_go chunk target fuel w).1.flatten =
          List.replicate (target - w) 0 ∧
        (add_padding_go chunk target fuel w).2 = max w target := by
  intro fuel
  induction fuel with
  | zero =>
    intro w hn
    unfold add_padding_go
    constructor
    · simp
      omega
    · simp
      omega
  | succ k ih =>
    intro w hn
    by_cases h : w < target
    · have hsize : 0 < min (target - w) chunk := by omega
      unfold add_padding_go
      rw [if_pos h]
      set size := min (target - w) chunk with hsz
      obtain ⟨h1, h2⟩ := ih (w + size) (by omega)
      constructor
      · simp only [List.flatten_cons, h1]
        have hsum : size + (target - (w + size)) = target - w := by omega
        rw [← hsum, List.replicate_add]
      · simp only
        rw [h2]
        omega
    · unfold add_padding_go
      rw [if_neg h]
      constructor
      · simp
        omega
      · simp
        omega

theorem add_padding_spec (chunk : Nat) (hc : 0 < chunk) :
    ∀ n target w, target - w ≤ n →
      (add_padding chunk target w).1.flatten = List.replicate (target - w) 0 ∧
        (add_padding chunk target w).2 = max w target := by
  intro _ target w _
  unfold add_padding
  exact add_padding_go_spec chunk hc target (target - w) w le_rfl

theorem add_padding_flatten (chunk target w : Nat) (hc : 0 < chunk) :
    (add_padding chunk target w).1.flatten = List.replicate (target - w) 0 :=
  (add_padding_spec chunk hc (target - w) target w le_rfl).1

theorem add_padding_cursor (chunk target w : Nat) (hc : 0 < chunk) :
    (add_padding chunk target w).2 = max w target :=
  (add_padding_spec chunk hc (target - w) target w le_rfl).2

theorem add_padding_go_chunks (chunk target : Nat) (hc : 0 < chunk) :
    ∀ fuel w, ∀ c ∈ (add_padding_go chunk target fuel w).1,
      c.length ≤ chunk ∧ 0 < c.length ∧ c = List.replicate c.length 0 := by
  intro fuel
  induction fuel with
  | zero =>
    intro w c hcm
    unfold add_padding_go at hcm
    simp at hcm
  | succ k ih =>
    intro w c hcm
    unfold add_padding_go at hcm
    by_cases h : w < target
    · rw [if_pos h] at hcm
      simp only [List.mem_cons] at hcm
      rcases hcm with hcm | hcm
      · subst hcm
        refine ⟨by simp, by simp; omega, by simp⟩
      · exact ih (w + min (target - w) chunk) c hcm
    · rw [if_neg h] at hcm
      simp at hcm

theorem add_padding_chunks (chunk : Nat) :
    ∀ n target w, target - w ≤ n → 0 < chunk →
      ∀ c ∈ (add_padding chunk target w).1,
        c.length ≤ chunk ∧ 0 < c.length ∧ c = List.replicate c.length 0 := by
  intro _ target w _ hc
  unfold add_padding
  exact add_padding_go_chunks chunk target hc (target - w) w

/-! ### Helper lemmas: `strict_signed_diff` -/

theorem u64_wrapping_sub_of_le (a b : Nat) (hab : b ≤ a) (ha : a < U64_SIZE) :
    u64_wrapping_sub a b = a - b := by
  unfold u64_wrapping_sub
  have h1 : a + U64_SIZE - b = (a - b) + U64_SIZE := by omega
  rw [h1, Nat.add_mod_right, Nat.mod_eq_of_lt (by omega)]

theorem u64_wrapping_sub_of_lt (a b : Nat) (hab : a < b) (hb : b < U64_SIZE) :
    u64_wrapping_sub a b = a + U64_SIZE - b := by
  unfold u64_wrapping_sub
  exact Nat.mod_eq_of_lt (by omega)

theorem strict_signed_diff_eq_some (a b : Nat) (ha : a < U64_SIZE) (hb : b < U64_SIZE)
    (hrep : -(I64_HALF : Int) ≤ (a : Int) - (b : Int) ∧
      (a : Int) - (b : Int) < (I64_HALF : Int)) :
    strict_signed_diff a b = some ((a : Int) - (b : Int)) := by
  have hu : U64_SIZE = 2 ^ 64 := rfl
  have hi : I64_HALF = 2 ^ 63 := rfl
  unfold strict_signed_diff
  rcases le_or_lt b a with hab | hab
  · rw [u64_wrapping_sub_of_le a b hab ha]
    have hlt : a - b < I64_HALF := by
      have := hrep.2
      omega
    have hres : u64_as_i64 (a - b) = (a : Int) - (b : Int) := by
      unfold u64_as_i64
      rw [if_pos hlt]
      omega
    rw [hres]
    have hnneg : ¬((a : Int) - (b : Int) < 0) := by omega
    rw [if_neg]
    simp only [iff_iff_implies_and_implies]
    intro hcontra
    exact hnneg (hcontra.1 hab)
  · rw [u64_wrapping_sub_of_lt a b hab hb]
    have hge : ¬(a + U64_SIZE - b < I64_HALF) := by
      have := hrep.1
      omega
    have hres : u64_as_i64 (a + U64_SIZE - b) = (a : Int) - (b : Int) := by
      unfold u64_as_i64
      rw [if_neg hge]
      omega
    rw [hres]
    have hneg : (a : Int) - (b : Int) < 0 := by omega
    have hnle : ¬(b ≤ a) := by omega
    rw [if_neg]
    simp only [iff_iff_implies_and_implies]
    intro hcontra
    exact hnle (hcontra.2 hneg)

theorem strict_signed_diff_eq_none (a b : Nat) (ha : a < U64_SIZE) (hb : b < U64_SIZE)
    (hrep : ¬(-(I64_HALF : Int) ≤ (a : Int) - (b : Int) ∧
      (a : Int) - (b : Int) < (I64_HALF : Int))) :
    strict_signed_diff a b = none := by
  have hu : U64_SIZE = 2 ^ 64 := rfl
  have hi : I64_HALF = 2 ^ 63 := rfl
  unfold strict_signed_diff
  rcases le_or_lt b a with hab | hab
  · rw [u64_wrapping_sub_of_le a b hab ha]
    have hge : ¬(a - b < I64_HALF) := by omega
    have hres : u64_as_i64 (a - b) = ((a - b : Nat) : Int) - (U64_SIZE : Int) := by
      unfold u64_as_i64
      rw [if_neg hge]
    rw [hres]
    have hneg : ((a - b : Nat) : Int) - (U64_SIZE : Int) < 0 := by
      have : (a : Nat) - b < U64_SIZE := by omega
      omega
    rw [if_pos]
    constructor
    · intro _; exact hneg
    · intro _; exact hab
  · rw [u64_wrapping_sub_of_lt a b hab hb]
    have hlt : a + U64_SIZE - b < I64_HALF := by omega
    have hres : u64_as_i64 (a + U64_SIZE - b) = ((a + U64_SIZE - b : Nat) : Int) := by
      unfold u64_as_i64
      rw [if_pos hlt]
    rw [hres]
    have hnneg : ¬(((a + U64_SIZE - b : Nat) : Int) < 0) := by
      have : 0 ≤ (a + U64_SIZE - b : Nat) := Nat.zero_le _
      omega
    have hnle : ¬(b ≤ a) := by omega
    rw [if_pos]
    constructor
    · intro hba; exact absurd hba hnle
    · intro hr; exact absurd hr hnneg

theorem strict_signed_diff_self (a : Nat) : strict_signed_diff a a = some 0 := by
  unfold strict_signed_diff u64_wrapping_sub
  have h1 : a + U64_SIZE - a = U64_SIZE := by omega
  rw [h1, Nat.mod_self]
  have h2 : u64_as_i64 0 = 0 := by
    unfold u64_as_i64
    rw [if_pos]
    · rfl
    · exact Nat.pos_of_ne_zero (by decide)
  rw [h2]
  rw [if_neg]
  intro hcontra
  exact absurd (hcontra.1 le_rfl) (by omega)

/-! ### Helper lemmas: `cursor_after` and the `compute_shifts` loop -/

theorem cursor_after_nil (v : Nat) : cursor_after v [] = v := rfl

theorem cursor_after_cons (v : Nat) (h : SectionHeader) (t : List SectionHeader) :
    cursor_after v (h :: t) = cursor_after (h.sh_offset + h.sh_size) t := rfl

theorem cursor_after_take_succ (l : List SectionHeader) :
    ∀ (v i : Nat), i < l.length →
      cursor_after v (l.take (i + 1)) =
        (l.getD i default).sh_offset + (l.getD i default).sh_size := by
  induction l with
  | nil => intro v i hi; simp at hi
  | cons h t ih =>
    intro v i hi
    cases i with
    | zero => rfl
    | succ j =>
      rw [List.take_succ_cons, cursor_after_cons, List.getD_cons_succ]
      exact ih _ j (by simpa using hi)

theorem compute_shifts_loop_char (tf : Transformer) (bytes : List Nat) (ctx : Ctx) :
    ∀ (l : List SectionHeader) (v : Nat) (u : OutputProgramHeadersUpdater)
      (outs : List SectionHeader) (uF : OutputProgramHeadersUpdater) (vF : Nat),
      compute_shifts_loop tf bytes ctx l v u = some (outs, uF, vF) →
      outs.length = l.length ∧
        vF = cursor_after v outs ∧
        ∀ i, i < l.length →
          outs.getD i default =
            { l.getD i default with
              sh_offset :=
                relayout_offset (cursor_after v (outs.take i)) (l.getD i default),
              sh_size := dry_run_size tf bytes ctx (l.getD i default) } := by
  intro l
  induction l with
  | nil =>
    intro v u outs uF vF h
    simp only [compute_shifts_loop, Option.some.injEq, Prod.mk.injEq] at h
    obtain ⟨h1, _, h3⟩ := h
    subst h1
    subst h3
    refine ⟨rfl, rfl, ?_⟩
    intro i hi
    simp at hi
  | cons hd rest ih =>
    intro v u outs uF vF h
    simp only [compute_shifts_loop, Option.bind_eq_some, Option.map_eq_some'] at h
    obtain ⟨u1, hobs, ⟨outs', u', v'⟩, hrec, hr⟩ := h
    simp only [Prod.mk.injEq] at hr
    obtain ⟨houts, huF, hvF⟩ := hr
    subst houts
    subst huF
    subst hvF
    obtain ⟨hlen, hcur, hidx⟩ := ih _ _ outs' u' v' hrec
    refine ⟨by simpa using hlen, ?_, ?_⟩
    · rw [cursor_after_cons]
      exact hcur
    · intro i hi
      cases i with
      | zero => rfl
      | succ j =>
        rw [List.getD_cons_succ, List.getD_cons_succ, List.take_succ_cons,
          cursor_after_cons]
        exact hidx j (by simpa using hi)

theorem compute_shifts_elim (bytes : List Nat) (phs : List ProgramHeader)
    (shs : List SectionHeader) (ctx : Ctx) (tf : Transformer)
    (res : ComputeShiftsResult) (s0 : SectionHeader)
    (hhead : shs.head? = some s0)
    (h : compute_shifts bytes phs shs ctx tf = some res) :
    ∃ uF,
      compute_shifts_loop tf bytes ctx shs s0.sh_offset
          (OutputProgramHeadersUpdater.new phs) =
        some (res.section_headers, uF, res.section_headers_start) ∧
      into_result uF = some res.program_headers := by
  unfold compute_shifts at h
  rw [hhead] at h
  simp only [Option.bind_eq_some, Option.map_eq_some'] at h
  obtain ⟨⟨outs, uF, vF⟩, hloop, phsO, hres, hreseq⟩ := h
  subst hreseq
  exact ⟨uF, hloop, hres⟩

/-! ### Helper lemmas: the program-header updater -/

theorem observe_start_some_cases (s : OutputProgramHeadersUpdater)
    (old new : SectionDimensions) (s' : OutputProgramHeadersUpdater)
    (h : observe_start s old new = some s') :
    (position (phStartMatch old.offset) s.meta = none ∧ s' = s) ∨
      ∃ i, position (phStartMatch old.offset) s.meta = some i ∧
        (s.meta.getD i default).2.start = false ∧
        s' = { meta := s.meta.set i
                ((s.meta.getD i default).1,
                  { (s.meta.getD i default).2 with start := true })
               output := s.output.set i
                { s.output.getD i default with p_offset := new.offset } } := by
  unfold observe_start at h
  cases hpos : position (phStartMatch old.offset) s.meta with
  | none =>
    rw [hpos] at h
    dsimp only at h
    exact Or.inl ⟨rfl, (Option.some.inj h).symm⟩
  | some i =>
    rw [hpos] at h
    dsimp only at h
    by_cases hflag : (s.meta.getD i default).2.start = true
    · rw [if_pos hflag] at h
      exact Option.noConfusion h
    · rw [if_neg hflag] at h
      exact Or.inr ⟨i, rfl, by simpa using hflag, (Option.some.inj h).symm⟩

theorem observe_start_none_of_flag (s : OutputProgramHeadersUpdater)
    (old new : SectionDimensions) (i : Nat)
    (hpos : position (phStartMatch old.offset) s.meta = some i)
    (hflag : (s.meta.getD i default).2.start = true) :
    observe_start s old new = none := by
  unfold observe_start
  rw [hpos]
  simp only [List.getD_eq_getElem?_getD] at hflag
  simp [hflag]

theorem observe_end_some_cases (s : OutputProgramHeadersUpdater)
    (old new : SectionDimensions) (s' : OutputProgramHeadersUpdater)
    (h : observe_end s old new = some s') :
    (position (phEndMatch (old.offset + old.size)) s.meta = none ∧ s' = s) ∨
      ∃ i new_filesz adj,
        position (phEndMatch (old.offset + old.size)) s.meta = some i ∧
        (s.meta.getD i default).2.end_ = false ∧
        checked_add new.offset new.size = some (new.offset + new.size) ∧
        checked_sub (new.offset + new.size)
            (s.output.getD i default).p_offset = some new_filesz ∧
        strict_signed_diff new_filesz (s.output.getD i default).p_filesz = some adj ∧
        ∃ new_memsz,
          checked_add_signed (s.output.getD i default).p_memsz adj = some new_memsz ∧
          s' = { meta := s.meta.set i
                  ((s.meta.getD i default).1,
                    { (s.meta.getD i default).2 with end_ := true })
                 output := s.output.set i
                  { s.output.getD i default with
                    p_filesz := new_filesz, p_memsz := new_memsz } } := by
  unfold observe_end at h
  cases hpos : position (phEndMatch (old.offset + old.size)) s.meta with
  | none =>
    rw [hpos] at h
    dsimp only at h
    exact Or.inl ⟨rfl, (Option.some.inj h).symm⟩
  | some i =>
    rw [hpos] at h
    dsimp only at h
    by_cases hflag : (s.meta.getD i default).2.end_ = true
    · rw [if_pos hflag] at h
      exact Option.noConfusion h
    · rw [if_neg hflag] at h
      simp only [Option.bind_eq_some, Option.map_eq_some'] at h
      obtain ⟨new_end, hadd, new_filesz, hsub, adj, hdiff, new_memsz, hmem, hs'⟩ := h
      have hadd' : new_end = new.offset + new.size := by
        unfold checked_add at hadd
        by_cases hlt : new.offset + new.size < U64_SIZE
        · rw [if_pos hlt] at hadd
          exact (Option.some.inj hadd).symm
        · rw [if_neg hlt] at hadd
          exact Option.noConfusion hadd
      subst hadd'
      refine Or.inr ⟨i, new_filesz, adj, rfl, by simpa using hflag, hadd, hsub, hdiff,
        new_memsz, hmem, hs'.symm⟩

theorem observe_end_none_of_flag (s : OutputProgramHeadersUpdater)
    (old new : SectionDimensions) (i : Nat)
    (hpos : position (phEndMatch (old.offset + old.size)) s.meta = some i)
    (hflag : (s.meta.getD i default).2.end_ = true) :
    observe_end s old new = none := by
  unfold observe_end
  rw [hpos]
  simp only [List.getD_eq_getElem?_getD] at hflag
  simp [hflag]

theorem getD_map_fst {α β : Type} [Inhabited α] [Inhabited β]
    (l : List (α × β)) (i : Nat) :
    (l.map Prod.fst).getD i default = (l.getD i default).1 := by
  induction l generalizing i with
  | nil => rfl
  | cons x xs ih =>
    cases i with
    | zero => rfl
    | succ j => simpa using ih j

theorem observe_start_preserves (s : OutputProgramHeadersUpdater)
    (old new : SectionDimensions) (s' : OutputProgramHeadersUpdater)
    (h : observe_start s old new = some s') :
    s'.meta.map Prod.fst = s.meta.map Prod.fst ∧
      s'.meta.length = s.meta.length ∧
      s'.output.length = s.output.length ∧
      (∀ j, (s'.meta.getD j default).2.end_ = (s.meta.getD j default).2.end_) ∧
      (∀ j, (s'.output.getD j default).p_filesz = (s.output.getD j default).p_filesz) ∧
      (∀ j, (s'.output.getD j default).p_memsz = (s.output.getD j default).p_memsz) := by
  rcases observe_start_some_cases s old new s' h with ⟨_, rfl⟩ | ⟨i, hpos, _, rfl⟩
  · exact ⟨rfl, rfl, rfl, fun _ => rfl, fun _ => rfl, fun _ => rfl⟩
  · have hilt : i < s.meta.length := position_lt _ _ _ hpos
    refine ⟨?_, by simp, by simp, ?_, ?_, ?_⟩
    · rw [map_fst_set]
      have h1 : (s.meta.map Prod.fst).getD i default = (s.meta.getD i default).1 :=
        getD_map_fst s.meta i
      rw [← h1]
      exact set_getD_self_eq _ i default (by simpa using hilt)
    · intro j
      by_cases hij : i = j
      · subst hij
        rw [getD_set_self _ i _ _ hilt]
      · rw [getD_set_ne _ i j _ _ hij]
    · intro j
      by_cases hij : i = j
      · subst hij
        have hout : i < s.output.length ∨ ¬(i < s.output.length) := em _
        rcases hout with hout | hout
        · rw [getD_set_self _ i _ _ hout]
        · rw [List.getD_eq_default _ _ (by simpa using Nat.le_of_not_lt hout),
            List.getD_eq_default _ _ (Nat.le_of_not_lt hout)]
      · rw [getD_set_ne _ i j _ _ hij]
    · intro j
      by_cases hij : i = j
      · subst hij
        have hout : i < s.output.length ∨ ¬(i < s.output.length) := em _
        rcases hout with hout | hout
        · rw [getD_set_self _ i _ _ hout]
        · rw [List.getD_eq_default _ _ (by simpa using Nat.le_of_not_lt hout),
            List.getD_eq_default _ _ (Nat.le_of_not_lt hout)]
      · rw [getD_set_ne _ i j _ _ hij]

theorem observe_start_sets_flag (s : OutputProgramHeadersUpdater)
    (old new : SectionDimensions) (s' : OutputProgramHeadersUpdater) (i : Nat)
    (hpos : position (phStartMatch old.offset) s.meta = some i)
    (h : observe_start s old new = some s') :
    (s'.meta.getD i default).2.start = true := by
  rcases observe_start_some_cases s old new s' h with ⟨hnone, _⟩ | ⟨i', hpos', _, rfl⟩
  · rw [hpos] at hnone
    exact Option.noConfusion hnone
  · rw [hpos] at hpos'
    have hii : i = i' := Option.some.inj hpos'
    rw [← hii]
    have hilt : i < s.meta.length := position_lt _ _ _ hpos
    rw [getD_set_self _ i _ _ hilt]

theorem observe_end_preserves (s : OutputProgramHeadersUpdater)
    (old new : SectionDimensions) (s' : OutputProgramHeadersUpdater)
    (h : observe_end s old new = some s') :
    s'.meta.map Prod.fst = s.meta.map Prod.fst ∧
      s'.meta.length = s.meta.length ∧
      s'.output.length = s.output.length ∧
      (∀ j, (s'.meta.getD j default).2.start = (s.meta.getD j default).2.start) ∧
      (∀ j, (s'.output.getD j default).p_offset = (s.output.getD j default).p_offset) := by
  rcases observe_end_some_cases s old new s' h with ⟨_, rfl⟩ |
    ⟨i, new_filesz, adj, hpos, _, _, _, _, new_memsz, _, rfl⟩
  · exact ⟨rfl, rfl, rfl, fun _ => rfl, fun _ => rfl⟩
  · have hilt : i < s.meta.length := position_lt _ _ _ hpos
    refine ⟨?_, by simp, by simp, ?_, ?_⟩
    · rw [map_fst_set]
      have h1 : (s.meta.map Prod.fst).getD i default = (s.meta.getD i default).1 :=
        getD_map_fst s.meta i
      rw [← h1]
      exact set_getD_self_eq _ i default (by simpa using hilt)
    · intro j
      by_cases hij : i = j
      · subst hij
        rw [getD_set_self _ i _ _ hilt]
      · rw [getD_set_ne _ i j _ _ hij]
    · intro j
      by_cases hij : i = j
      · subst hij
        have hout : i < s.output.length ∨ ¬(i < s.output.length) := em _
        rcases hout with hout | hout
        · rw [getD_set_self _ i _ _ hout]
        · rw [List.getD_eq_default _ _ (by simpa using Nat.le_of_not_lt hout),
            List.getD_eq_default _ _ (Nat.le_of_not_lt hout)]
      · rw [getD_set_ne _ i j _ _ hij]

theorem observe_end_sets_flag (s : OutputProgramHeadersUpdater)
    (old new : SectionDimensions) (s' : OutputProgramHeadersUpdater) (i : Nat)
    (hpos : position (phEndMatch (old.offset + old.size)) s.meta = some i)
    (h : observe_end s old new = some s') :
    (s'.meta.getD i default).2.end_ = true := by
  rcases observe_end_some_cases s old new s' h with ⟨hnone, _⟩ |
    ⟨i', new_filesz, adj, hpos', _, _, _, _, new_memsz, _, rfl⟩
  · rw [hpos] at hnone
    exact Option.noConfusion hnone
  · rw [hpos] at hpos'
    have hii : i = i' := Option.some.inj hpos'
    rw [← hii]
    have hilt : i < s.meta.length := position_lt _ _ _ hpos
    rw [getD_set_self _ i _ _ hilt]

theorem position_phStartMatch_congr (o : Nat)
    {l l' : List (SectionDimensions × ProgramHeaderUpdate)}
    (h : l.map Prod.fst = l'.map Prod.fst) :
    position (phStartMatch o) l = position (phStartMatch o) l' :=
  position_fst_congr (fun dims => dims.offset == o) h

theorem position_phEndMatch_congr (e : Nat)
    {l l' : List (SectionDimensions × ProgramHeaderUpdate)}
    (h : l.map Prod.fst = l'.map Prod.fst) :
    position (phEndMatch e) l = position (phEndMatch e) l' :=
  position_fst_congr (fun dims => dims.offset + dims.size == e) h

/-! ### Helper lemmas: `next_multiple_of` against the spec's description -/

theorem next_multiple_of_ge (n a : Nat) : n ≤ next_multiple_of n a := by
  unfold next_multiple_of
  split
  · exact le_rfl
  · exact Nat.le_add_right n _

theorem next_multiple_of_spec (n a : Nat) (ha : 0 < a) :
    spec_least_multiple_ge a n (next_multiple_of n a) := by
  unfold next_multiple_of spec_least_multiple_ge
  by_cases hr : n % a = 0
  · rw [if_pos hr]
    exact ⟨Nat.dvd_of_mod_eq_zero hr, le_rfl, fun m _ hm => hm⟩
  · rw [if_neg hr]
    have hdm := Nat.div_add_mod n a
    have hrlt : n % a < a := Nat.mod_lt n ha
    have hne : 0 < n % a := Nat.pos_of_ne_zero hr
    have hform : n + (a - n % a) = a * (n / a + 1) := by
      have h1 : a * (n / a + 1) = a * (n / a) + a := by ring
      omega
    refine ⟨?_, Nat.le_add_right n _, ?_⟩
    · rw [hform]
      exact Dvd.intro _ rfl
    · intro m hdvd hnm
      obtain ⟨k, rfl⟩ := hdvd
      rw [hform]
      have hqk : n / a < k := by
        by_contra hcon
        have hk : k ≤ n / a := Nat.le_of_not_lt hcon
        have : a * k ≤ a * (n / a) := Nat.mul_le_mul_left a hk
        omega
      exact Nat.mul_le_mul_left a hqk

theorem relayout_offset_ge (v : Nat) (h : SectionHeader) :
    v ≤ relayout_offset v h := by
  unfold relayout_offset
  split
  · exact le_rfl
  · exact next_multiple_of_ge v h.sh_addralign

/-! ### Helper lemmas: value extraction from the checked operations -/

theorem checked_add_some (a b c : Nat) (h : checked_add a b = some c) :
    c = a + b ∧ a + b < U64_SIZE := by
  unfold checked_add at h
  by_cases hlt : a + b < U64_SIZE
  · rw [if_pos hlt] at h
    exact ⟨(Option.some.inj h).symm, hlt⟩
  · rw [if_neg hlt] at h
    exact Option.noConfusion h

theorem checked_sub_some (a b c : Nat) (h : checked_sub a b = some c) :
    c = a - b ∧ b ≤ a := by
  unfold checked_sub at h
  by_cases hle : b ≤ a
  · rw [if_pos hle] at h
    exact ⟨(Option.some.inj h).symm, hle⟩
  · rw [if_neg hle] at h
    exact Option.noConfusion h

theorem checked_add_signed_some (a : Nat) (i : Int) (c : Nat)
    (h : checked_add_signed a i = some c) : (c : Int) = (a : Int) + i := by
  unfold checked_add_signed at h
  by_cases hc : 0 ≤ (a : Int) + i ∧ (a : Int) + i < (U64_SIZE : Int)
  · rw [if_pos hc] at h
    rw [← Option.some.inj h]
    exact Int.toNat_of_nonneg hc.1
  · rw [if_neg hc] at h
    exact Option.noConfusion h

theorem strict_signed_diff_val (a b : Nat) (ha : a < U64_SIZE) (hb : b < U64_SIZE)
    (d : Int) (h : strict_signed_diff a b = some d) : d = (a : Int) - b := by
  by_cases hrep : -(I64_HALF : Int) ≤ (a : Int) - (b : Int) ∧
      (a : Int) - (b : Int) < (I64_HALF : Int)
  · rw [strict_signed_diff_eq_some a b ha hb hrep] at h
    exact (Option.some.inj h).symm
  · rw [strict_signed_diff_eq_none a b ha hb hrep] at h
    exact Option.noConfusion h

theorem into_result_some (u : OutputProgramHeadersUpdater) (x : List ProgramHeader)
    (h : into_result u = some x) : x = u.output := by
  unfold into_result at h
  by_cases hall : (u.meta.all fun m => m.2.start && m.2.end_) = true
  · rw [if_pos hall] at h
    exact (Option.some.inj h).symm
  · rw [if_neg hall] at h
    exact Option.noConfusion h

/-! ### Claim theorems -/

/-- C1, counterexample.  The claim says `compute_shifts` starts its cursor at
the first NON-NULL section's offset, skips the null entry (iteration starting
at index 1 in effect), and returns an empty plan when there are no non-null
sections.  On the array `[null, section at offset 140]` the claim predicts the
section keeps offset 140 (cursor 140, alignment 0); the code instead starts
the cursor at the null entry's offset 0, processes the null entry too, and
relocates the section to offset 0.  On the array `[null]` (no non-null
sections) the claim predicts an empty plan; the code returns a one-entry
plan. -/
theorem c1_counterexample :
    (compute_shifts [] [] [sec 0 0 0 0, sec 1 140 15 0] ctx64 tf_decline).map
        (fun r => ((r.section_headers.getD 1 default).sh_offset,
          r.section_headers.length)) = some (0, 2) ∧
      (compute_shifts [] [] [sec 0 0 0 0] ctx64 tf_decline).map
        (fun r => r.section_headers.length) = some 1 ∧
      (0 : Nat) ≠ 140 :=
  ⟨rfl, rfl, by decide⟩

/-- C1, amended: `compute_shifts` initializes its write cursor to the first
array entry's original offset (null or not), iterates over ALL section headers
in array order including index 0, and returns the empty plan with table start
0 exactly when the section-header array is empty. -/
theorem c1_compute_shifts_iteration (bytes : List Nat) (phs : List ProgramHeader)
    (ctx : Ctx) (tf : Transformer) :
    compute_shifts bytes phs [] ctx tf =
      some { program_headers := [], section_headers := [],
             section_headers_start := 0 } ∧
      ∀ (s0 : SectionHeader) (rest : List SectionHeader) (res : ComputeShiftsResult),
        compute_shifts bytes phs (s0 :: rest) ctx tf = some res →
        res.section_headers.length = rest.length + 1 ∧
          (res.section_headers.getD 0 default).sh_offset =
            relayout_offset s0.sh_offset s0 ∧
          (res.section_headers.getD 0 default).sh_size =
            dry_run_size tf bytes ctx s0 := by
  constructor
  · rfl
  · intro s0 rest res h
    obtain ⟨uF, hloop, _⟩ :=
      compute_shifts_elim bytes phs (s0 :: rest) ctx tf res s0 rfl h
    obtain ⟨hlen, _, hidx⟩ :=
      compute_shifts_loop_char tf bytes ctx _ s0.sh_offset _ _ _ _ hloop
    have h0 := hidx 0 (by simp)
    refine ⟨by simpa using hlen, ?_, ?_⟩
    · rw [h0]
      rfl
    · rw [h0]
      rfl

/-- C1, witness for the amended theorem at concrete inputs. -/
theorem c1_witness :
    compute_shifts [] [] ([] : List SectionHeader) ctx64 tf_decline =
      some { program_headers := [], section_headers := [],
             section_headers_start := 0 } ∧
      ({ program_headers := [],
         section_headers := [sec 0 0 0 0, { sec 1 140 15 0 with sh_offset := 0 }],
         section_headers_start := 15 } : ComputeShiftsResult).section_headers.length
          = 2 := by
  refine ⟨(c1_compute_shifts_iteration [] [] ctx64 tf_decline).1, ?_⟩
  exact ((c1_compute_shifts_iteration [] [] ctx64 tf_decline).2 (sec 0 0 0 0)
    [sec 1 140 15 0] _ rfl).1

/-- C2: for every section processed by `compute_shifts` (when it returns a
plan), the section's new offset equals the current cursor when its alignment
is 0 or 1, and is the smallest multiple of the alignment that is ≥ the cursor
when the alignment exceeds 1; the cursor advances past each planned section
(`cursor_after`), and the final cursor value is the plan's
section-header-table start. -/
theorem c2_compute_shifts_alignment (bytes : List Nat) (phs : List ProgramHeader)
    (shs : List SectionHeader) (ctx : Ctx) (tf : Transformer)
    (res : ComputeShiftsResult) (s0 : SectionHeader)
    (hhead : shs.head? = some s0)
    (h : compute_shifts bytes phs shs ctx tf = some res) :
    res.section_headers_start = cursor_after s0.sh_offset res.section_headers ∧
      ∀ i, i < shs.length →
        ((shs.getD i default).sh_addralign ≤ 1 →
          (res.section_headers.getD i default).sh_offset =
            cursor_after s0.sh_offset (res.section_headers.take i)) ∧
        (1 < (shs.getD i default).sh_addralign →
          spec_least_multiple_ge (shs.getD i default).sh_addralign
            (cursor_after s0.sh_offset (res.section_headers.take i))
            (res.section_headers.getD i default).sh_offset) := by
  obtain ⟨uF, hloop, _⟩ := compute_shifts_elim bytes phs shs ctx tf res s0 hhead h
  obtain ⟨_, hcur, hidx⟩ :=
    compute_shifts_loop_char tf bytes ctx shs s0.sh_offset _ _ _ _ hloop
  refine ⟨hcur, fun i hi => ?_⟩
  have hout := hidx i hi
  constructor
  · intro hal
    rw [hout]
    show relayout_offset _ _ = _
    unfold relayout_offset
    rw [if_pos hal]
  · intro hal
    rw [hout]
    show spec_least_multiple_ge _ _ (relayout_offset _ _)
    unfold relayout_offset
    rw [if_neg (by omega)]
    exact next_multiple_of_spec _ _ (by omega)

/-- C2, witness: on a two-section input whose second section has alignment 4
and sits after a cursor at 15, the planned offset 16 is the least multiple of
4 that is ≥ 15. -/
theorem c2_witness : spec_least_multiple_ge 4 15 16 := by
  have hcs : compute_shifts [] [] [sec 1 10 5 0, sec 2 15 3 4] ctx64 tf_decline =
      some { program_headers := [],
             section_headers := [sec 1 10 5 0, { sec 2 15 3 4 with sh_offset := 16 }],
             section_headers_start := 19 } := rfl
  have h2 := (c2_compute_shifts_alignment [] [] [sec 1 10 5 0, sec 2 15 3 4] ctx64
    tf_decline _ (sec 1 10 5 0) rfl hcs).2 1 (by decide)
  exact h2.2 (by decide)

/-- C7, counterexample.  The claim says a padding target before the current
write cursor is a fatal internal error; the source's `while` loop simply does
not execute in that case — `add_padding` returns normally, writes nothing and
leaves the cursor unchanged, with no failure path at all. -/
theorem c7_counterexample :
    (5 : Nat) < 10 ∧ add_padding 16 5 10 = ([], 10) :=
  ⟨by decide, add_padding_back 16 5 10 (by decide)⟩

/-- C7, amended: when the target is ≥ the cursor, `add_padding` writes exactly
`target − cursor` zero bytes (in non-empty chunks of at most the scratch-chunk
size) and advances the cursor to the target; when the target is behind the
cursor it writes nothing and leaves the cursor unchanged (no error is
raised); it never writes a negative-length region. -/
theorem c7_add_padding_behavior (chunk target w : Nat) (hc : 0 < chunk) :
    (w ≤ target →
      (add_padding chunk target w).1.flatten = List.replicate (target - w) 0 ∧
        (add_padding chunk target w).2 = target) ∧
      (target < w → add_padding chunk target w = ([], w)) ∧
      ∀ c ∈ (add_padding chunk target w).1,
        c.length ≤ chunk ∧ 0 < c.length ∧ c = List.replicate c.length 0 := by
  refine ⟨fun hwt => ⟨add_padding_flatten chunk target w hc, ?_⟩,
    fun htw => add_padding_back chunk target w (le_of_lt htw),
    add_padding_chunks chunk (target - w) target w le_rfl hc⟩
  rw [add_padding_cursor chunk target w hc]
  omega

/-- C7, witness for the amended theorem at concrete inputs. -/
theorem c7_witness :
    (add_padding 16 40 8).1.flatten = List.replicate 32 0 ∧
      (add_padding 16 40 8).2 = 40 ∧ add_padding 16 5 10 = ([], 10) := by
  refine ⟨?_, ?_, ?_⟩
  · have h := ((c7_add_padding_behavior 16 40 8 (by decide)).1 (by decide)).1
    simpa using h
  · exact ((c7_add_padding_behavior 16 40 8 (by decide)).1 (by decide)).2
  · exact (c7_add_padding_behavior 16 5 10 (by decide)).2.1 (by decide)

/-- C8: for `u64` values `a` and `b`, `strict_signed_diff` returns the exact
mathematical difference `a − b` whenever it is representable as an `i64`, and
panics (modelled by `none`) whenever it is not — it never silently wraps. -/
theorem c8_strict_signed_diff_exact (a b : Nat) (ha : a < U64_SIZE)
    (hb : b < U64_SIZE) :
    ((-(I64_HALF : Int) ≤ (a : Int) - (b : Int) ∧
        (a : Int) - (b : Int) < (I64_HALF : Int)) →
      strict_signed_diff a b = some ((a : Int) - (b : Int))) ∧
      (¬(-(I64_HALF : Int) ≤ (a : Int) - (b : Int) ∧
          (a : Int) - (b : Int) < (I64_HALF : Int)) →
        strict_signed_diff a b = none) :=
  ⟨strict_signed_diff_eq_some a b ha hb, strict_signed_diff_eq_none a b ha hb⟩

/-- C8, witness: `5 − 7` is representable and yields `-2`; `2^63 − 0` is not
representable as an `i64` and panics. -/
theorem c8_witness :
    strict_signed_diff 5 7 = some (-2) ∧ strict_signed_diff (2 ^ 63) 0 = none := by
  constructor
  · have h := (c8_strict_signed_diff_exact 5 7 (by norm_num [U64_SIZE])
      (by norm_num [U64_SIZE])).1 (by norm_num [I64_HALF])
    simpa using h
  · exact (c8_strict_signed_diff_exact (2 ^ 63) 0 (by norm_num [U64_SIZE])
      (by norm_num [U64_SIZE])).2 (by norm_num [I64_HALF])

theorem getD_mem {α : Type} (l : List α) (j : Nat) (d : α) (h : j < l.length) :
    l.getD j d ∈ l := by
  induction l generalizing j with
  | nil => simp at h
  | cons x xs ih =>
    cases j with
    | zero => exact List.mem_cons_self x xs
    | succ k =>
      rw [List.getD_cons_succ]
      exact List.mem_cons_of_mem x (ih k (by simpa using h))

/-- C3: whenever a processed section's old end equals the recorded end of the
(first) matching program header and the observation succeeds, the tracker sets
that program header's new file size so that (possibly already updated offset)
+ (new file size) = (section's new offset) + (section's new size), and adjusts
the in-memory size by exactly the signed delta of the file-size change. -/
theorem c3_end_coincidence_update (s s' : OutputProgramHeadersUpdater)
    (old new : SectionDimensions) (i : Nat)
    (hlen : s.output.length = s.meta.length)
    (hpos : position (phEndMatch (old.offset + old.size)) s.meta = some i)
    (hfsz : (s.output.getD i default).p_filesz < U64_SIZE)
    (hobs : observe_file_section s old new = some s') :
    (s'.output.getD i default).p_offset + (s'.output.getD i default).p_filesz =
      new.offset + new.size ∧
      ((s'.output.getD i default).p_memsz : Int) -
          ((s.output.getD i default).p_memsz : Int) =
        ((s'.output.getD i default).p_filesz : Int) -
          ((s.output.getD i default).p_filesz : Int) := by
  unfold observe_file_section at hobs
  obtain ⟨s1, hs1, hs2⟩ := Option.bind_eq_some.mp hobs
  have hpres1 := observe_start_preserves s old new s1 hs1
  have hpos1 : position (phEndMatch (old.offset + old.size)) s1.meta = some i := by
    rw [position_phEndMatch_congr _ hpres1.1]
    exact hpos
  rcases observe_end_some_cases s1 old new s' hs2 with ⟨hnone, _⟩ |
    ⟨i', new_filesz, adj, hpos', hflag, hadd, hsub, hdiff, new_memsz, hmem, hs'eq⟩
  · rw [hpos1] at hnone
    exact Option.noConfusion hnone
  · rw [hpos1] at hpos'
    have hii : i = i' := Option.some.inj hpos'
    subst hii
    have hilt : i < s1.meta.length := position_lt _ _ _ hpos1
    have hioutlen : i < s1.output.length := by
      have h1 := hpres1.2.1
      have h2 := hpres1.2.2.1
      omega
    have hfil1 : (s1.output.getD i default).p_filesz =
        (s.output.getD i default).p_filesz := hpres1.2.2.2.2.1 i
    have hmem1 : (s1.output.getD i default).p_memsz =
        (s.output.getD i default).p_memsz := hpres1.2.2.2.2.2 i
    obtain ⟨hsum, hsumlt⟩ := checked_add_some _ _ _ hadd
    obtain ⟨hnf, hle⟩ := checked_sub_some _ _ _ hsub
    have hfszlt : new_filesz < U64_SIZE := by omega
    have hfsz1 : (s1.output.getD i default).p_filesz < U64_SIZE := by
      rw [hfil1]
      exact hfsz
    have hadjval : adj = (new_filesz : Int) - (s1.output.getD i default).p_filesz :=
      strict_signed_diff_val _ _ hfszlt hfsz1 adj hdiff
    have hmemval : (new_memsz : Int) = ((s1.output.getD i default).p_memsz : Int) + adj :=
      checked_add_signed_some _ _ _ hmem
    subst hs'eq
    dsimp only at hfil1 hmem1 ⊢
    rw [getD_set_self _ i _ _ hioutlen]
    dsimp only
    constructor
    · omega
    · rw [hadjval] at hmemval
      rw [← hfil1, ← hmem1]
      omega

/-- C3, witness: one program header `[100, 112)` of file/memory size 12; the
section covering `[100, 112)` grows to size 15; the updated program header has
offset 100, file size 15 and memory size 15 = 12 + (15 − 12). -/
theorem c3_witness :
    (({ meta := [({ offset := 100, size := 12 }, { start := true, end_ := true })],
        output := [{ pheader 100 12 with p_filesz := 15, p_memsz := 15 }] } :
          OutputProgramHeadersUpdater).output.getD 0 default).p_offset +
      (({ meta := [({ offset := 100, size := 12 }, { start := true, end_ := true })],
          output := [{ pheader 100 12 with p_filesz := 15, p_memsz := 15 }] } :
            OutputProgramHeadersUpdater).output.getD 0 default).p_filesz =
      100 + 15 := by
  have hobs : observe_file_section (OutputProgramHeadersUpdater.new [pheader 100 12])
      { offset := 100, size := 12 } { offset := 100, size := 15 } =
      some { meta := [({ offset := 100, size := 12 }, { start := true, end_ := true })],
             output := [{ pheader 100 12 with p_filesz := 15, p_memsz := 15 }] } := rfl
  exact (c3_end_coincidence_update (OutputProgramHeadersUpdater.new [pheader 100 12])
    _ { offset := 100, size := 12 } { offset := 100, size := 15 } 0 rfl rfl
    (by decide) hobs).1

/-- C4: each program header's start flag and end flag are settable at most
once, and both must be set when the updater is finalized: (1) after a section
coinciding with a program header's recorded start has been observed, observing
a second section with the same old offset is a fatal assertion failure
(`none`); (2) likewise for a second section with the same old end; (3) a
program header with either flag unset makes `into_result` fail fatally
(`none`) rather than return program headers. -/
theorem c4_boundary_flags :
    (∀ (s s' : OutputProgramHeadersUpdater)
        (old1 new1 old2 new2 : SectionDimensions) (i : Nat),
      position (phStartMatch old1.offset) s.meta = some i →
      observe_file_section s old1 new1 = some s' →
      old2.offset = old1.offset →
      observe_file_section s' old2 new2 = none) ∧
      (∀ (s s' : OutputProgramHeadersUpdater)
          (old1 new1 old2 new2 : SectionDimensions) (i : Nat),
        position (phEndMatch (old1.offset + old1.size)) s.meta = some i →
        observe_file_section s old1 new1 = some s' →
        old2.offset + old2.size = old1.offset + old1.size →
        observe_file_section s' old2 new2 = none) ∧
      ∀ (s : OutputProgramHeadersUpdater) (j : Nat), j < s.meta.length →
        ((s.meta.getD j default).2.start = false ∨
          (s.meta.getD j default).2.end_ = false) →
        into_result s = none := by
  refine ⟨?_, ?_, ?_⟩
  · intro s s' old1 new1 old2 new2 i hpos hobs heq
    unfold observe_file_section at hobs
    obtain ⟨s1, hs1, hs2⟩ := Option.bind_eq_some.mp hobs
    have hflag1 : (s1.meta.getD i default).2.start = true :=
      observe_start_sets_flag s old1 new1 s1 i hpos hs1
    have hpres2 := observe_end_preserves s1 old1 new1 s' hs2
    have hflag' : (s'.meta.getD i default).2.start = true := by
      rw [hpres2.2.2.2.1 i]
      exact hflag1
    have hfst : s'.meta.map Prod.fst = s.meta.map Prod.fst := by
      rw [hpres2.1, (observe_start_preserves s old1 new1 s1 hs1).1]
    have hpos' : position (phStartMatch old2.offset) s'.meta = some i := by
      rw [heq, position_phStartMatch_congr old1.offset hfst]
      exact hpos
    unfold observe_file_section
    rw [observe_start_none_of_flag s' old2 new2 i hpos' hflag']
    rfl
  · intro s s' old1 new1 old2 new2 i hpos hobs heq
    unfold observe_file_section at hobs
    obtain ⟨s1, hs1, hs2⟩ := Option.bind_eq_some.mp hobs
    have hfst1 : s1.meta.map Prod.fst = s.meta.map Prod.fst :=
      (observe_start_preserves s old1 new1 s1 hs1).1
    have hpos1 : position (phEndMatch (old1.offset + old1.size)) s1.meta = some i := by
      rw [position_phEndMatch_congr _ hfst1]
      exact hpos
    have hflag' : (s'.meta.getD i default).2.end_ = true :=
      observe_end_sets_flag s1 old1 new1 s' i hpos1 hs2
    have hfst' : s'.meta.map Prod.fst = s.meta.map Prod.fst := by
      rw [(observe_end_preserves s1 old1 new1 s' hs2).1, hfst1]
    unfold observe_file_section
    cases hs1' : observe_start s' old2 new2 with
    | none => rfl
    | some s1'' =>
      have hpres'' := observe_start_preserves s' old2 new2 s1'' hs1'
      have hflag'' : (s1''.meta.getD i default).2.end_ = true := by
        rw [hpres''.2.2.2.1 i]
        exact hflag'
      have hpos'' : position (phEndMatch (old2.offset + old2.size)) s1''.meta
          = some i := by
        rw [heq, position_phEndMatch_congr _ hpres''.1,
          position_phEndMatch_congr _ hfst']
        exact hpos
      show observe_end s1'' old2 new2 = none
      exact observe_end_none_of_flag s1'' old2 new2 i hpos'' hflag''
  · intro s j hj hflag
    have hcond : ¬((s.meta.all fun m => m.2.start && m.2.end_) = true) := by
      intro hall
      rw [List.all_eq_true] at hall
      have hmem := hall _ (getD_mem s.meta j default hj)
      rcases hflag with hf | hf <;> rw [hf] at hmem <;> simp at hmem
    unfold into_result
    rw [if_neg hcond]

/-- C4, witness: with one program header `[100, 112)`, after a section starting
at 100 is observed, observing a second section starting at 100 is fatal; and
finalizing a freshly created updater (no flags set) is fatal. -/
theorem c4_witness :
    observe_file_section
        { meta := [({ offset := 100, size := 12 }, { start := true, end_ := false })],
          output := [pheader 100 12] }
        { offset := 100, size := 2 } { offset := 100, size := 2 } = none ∧
      into_result (OutputProgramHeadersUpdater.new [pheader 100 12]) = none := by
  constructor
  · exact c4_boundary_flags.1 (OutputProgramHeadersUpdater.new [pheader 100 12])
      { meta := [({ offset := 100, size := 12 }, { start := true, end_ := false })],
        output := [pheader 100 12] }
      { offset := 100, size := 10 } { offset := 100, size := 10 }
      { offset := 100, size := 2 } { offset := 100, size := 2 } 0 rfl rfl rfl
  · exact c4_boundary_flags.2.2 (OutputProgramHeadersUpdater.new [pheader 100 12])
      0 (by decide) (Or.inl rfl)

/-! ### Helper lemmas: no-op observation on a pristine updater -/

theorem getD_map_of_default {α β : Type} [Inhabited α] [Inhabited β]
    (f : α → β) (hd : f default = default) (l : List α) (i : Nat) :
    (l.map f).getD i default = f (l.getD i default) := by
  induction l generalizing i with
  | nil => simp [hd]
  | cons x xs ih =>
    cases i with
    | zero => rfl
    | succ j => simpa using ih j

theorem upd_pristine_dims (phs : List ProgramHeader)
    (u : OutputProgramHeadersUpdater) (hp : upd_pristine phs u) (i : Nat) :
    (u.meta.getD i default).1 =
      { offset := (phs.getD i default).p_offset
        size := (phs.getD i default).p_filesz } := by
  have h1 := getD_map_fst u.meta i
  rw [hp.2] at h1
  rw [← h1]
  exact getD_map_of_default
    (fun p => ({ offset := p.p_offset, size := p.p_filesz } : SectionDimensions))
    rfl phs i

theorem upd_pristine_length (phs : List ProgramHeader)
    (u : OutputProgramHeadersUpdater) (hp : upd_pristine phs u) :
    u.meta.length = phs.length := by
  have h := congrArg List.length hp.2
  simpa using h

theorem observe_start_pristine (phs : List ProgramHeader)
    (u s1 : OutputProgramHeadersUpdater) (d : SectionDimensions)
    (hp : upd_pristine phs u) (hs1 : observe_start u d d = some s1) :
    upd_pristine phs s1 := by
  rcases observe_start_some_cases u d d s1 hs1 with ⟨_, rfl⟩ | ⟨i, hpos, _, rfl⟩
  · exact hp
  · have hilt : i < u.meta.length := position_lt _ _ _ hpos
    have hlenphs : u.meta.length = phs.length := upd_pristine_length phs u hp
    have hpred := position_pred _ _ i default hpos
    unfold phStartMatch at hpred
    rw [beq_iff_eq] at hpred
    have hdims := upd_pristine_dims phs u hp i
    have hoff : (phs.getD i default).p_offset = d.offset := by
      rw [hdims] at hpred
      exact hpred
    constructor
    · show u.output.set i _ = phs
      rw [hp.1]
      have heq : ({ phs.getD i default with p_offset := d.offset } : ProgramHeader)
          = phs.getD i default := by
        rw [← hoff]
      rw [heq]
      exact set_getD_self_eq phs i default (by omega)
    · show (u.meta.set i _).map Prod.fst = _
      rw [map_fst_set]
      rw [← getD_map_fst u.meta i]
      rw [set_getD_self_eq _ i default (by simpa using hilt)]
      exact hp.2

theorem observe_end_pristine (phs : List ProgramHeader)
    (u s' : OutputProgramHeadersUpdater) (d : SectionDimensions)
    (hp : upd_pristine phs u) (hs2 : observe_end u d d = some s') :
    upd_pristine phs s' := by
  rcases observe_end_some_cases u d d s' hs2 with ⟨_, rfl⟩ |
    ⟨i, new_filesz, adj, hpos, _, hadd, hsub, hdiff, new_memsz, hmem, rfl⟩
  · exact hp
  · have hilt : i < u.meta.length := position_lt _ _ _ hpos
    have hlenphs : u.meta.length = phs.length := upd_pristine_length phs u hp
    have hpred := position_pred _ _ i default hpos
    unfold phEndMatch at hpred
    rw [beq_iff_eq] at hpred
    have hdims := upd_pristine_dims phs u hp i
    have hends : (phs.getD i default).p_offset + (phs.getD i default).p_filesz
        = d.offset + d.size := by
      rw [hdims] at hpred
      exact hpred
    obtain ⟨hnf, hle⟩ := checked_sub_some _ _ _ hsub
    rw [hp.1] at hnf hle hdiff hmem
    have hnf' : new_filesz = (phs.getD i default).p_filesz := by omega
    rw [hnf'] at hdiff
    rw [strict_signed_diff_self] at hdiff
    have hadj : adj = 0 := (Option.some.inj hdiff).symm
    rw [hadj] at hmem
    have hmemval := checked_add_signed_some _ _ _ hmem
    have hnm : new_memsz = (phs.getD i default).p_memsz := by omega
    constructor
    · show u.output.set i _ = phs
      rw [hp.1]
      have heq : ({ phs.getD i default with
          p_filesz := new_filesz, p_memsz := new_memsz } : ProgramHeader)
          = phs.getD i default := by
        rw [hnf', hnm]
      rw [heq]
      exact set_getD_self_eq phs i default (by omega)
    · show (u.meta.set i _).map Prod.fst = _
      rw [map_fst_set]
      rw [← getD_map_fst u.meta i]
      rw [set_getD_self_eq _ i default (by simpa using hilt)]
      exact hp.2

theorem observe_pristine (phs : List ProgramHeader)
    (u u' : OutputProgramHeadersUpdater) (d : SectionDimensions)
    (hp : upd_pristine phs u) (h : observe_file_section u d d = some u') :
    upd_pristine phs u' := by
  unfold observe_file_section at h
  obtain ⟨s1, hs1, hs2⟩ := Option.bind_eq_some.mp h
  exact observe_end_pristine phs s1 u' d (observe_start_pristine phs u s1 d hp hs1) hs2

theorem tp_loop (tf : Transformer) (bytes : List Nat) (ctx : Ctx)
    (hdecl : ∀ b s c, (tf b s c).1 = none) (phs : List ProgramHeader) :
    ∀ (l : List SectionHeader) (v : Nat) (u : OutputProgramHeadersUpdater),
      tightly_packed_from v l = true → upd_pristine phs u →
      ∀ outs uF vF, compute_shifts_loop tf bytes ctx l v u = some (outs, uF, vF) →
        outs = l ∧ vF = cursor_after v l ∧ upd_pristine phs uF := by
  intro l
  induction l with
  | nil =>
    intro v u _ hp outs uF vF h
    simp only [compute_shifts_loop, Option.some.injEq, Prod.mk.injEq] at h
    obtain ⟨h1, h2, h3⟩ := h
    subst h1
    subst h2
    subst h3
    exact ⟨rfl, rfl, hp⟩
  | cons hd rest ih =>
    intro v u htp hp outs uF vF h
    simp only [tightly_packed_from, Bool.and_eq_true, beq_iff_eq] at htp
    obtain ⟨hoff, htp'⟩ := htp
    simp only [compute_shifts_loop, Option.bind_eq_some, Option.map_eq_some'] at h
    obtain ⟨u1, hobs, ⟨outs', u', v'⟩, hrec, hr⟩ := h
    simp only [Prod.mk.injEq] at hr
    obtain ⟨houts, huF, hvF⟩ := hr
    have hsize : dry_run_size tf bytes ctx hd = hd.sh_size := by
      unfold dry_run_size
      rw [hdecl]
    rw [hsize, ← hoff] at hobs
    have hp1 : upd_pristine phs u1 :=
      observe_pristine phs u u1 { offset := hd.sh_offset, size := hd.sh_size } hp hobs
    rw [hsize, ← hoff] at hrec
    obtain ⟨ho, hv, hpF⟩ := ih (hd.sh_offset + hd.sh_size) u1 htp' hp1 outs' u' v' hrec
    subst houts
    subst huF
    subst hvF
    refine ⟨?_, ?_, hpF⟩
    · rw [hsize, ← hoff, ho]
    · rw [cursor_after_cons]
      exact hv

set_option maxRecDepth 10000 in
/-- C5, counterexample.  The 196-byte file `bytes196`/`view196` passes the
verifier, yet an all-decline relayout plan is NOT byte-identical to the
input's section headers: the leading null entry resets the write cursor to
offset 0 and the 4-byte section at offset 64 is planned at offset 0. -/
theorem c5_counterexample :
    verify_elf_structure bytes196 view196 ctx64 = some (Except.ok ()) ∧
      (∀ b s c, (tf_decline b s c).1 = none) ∧
      (compute_shifts bytes196 [] [sec 0 0 0 0, sec 1 64 4 0] ctx64
          tf_decline).map (fun r => r.section_headers) =
        some [sec 0 0 0 0, { sec 1 64 4 0 with sh_offset := 0 }] ∧
      ({ sec 1 64 4 0 with sh_offset := 0 } : SectionHeader) ≠ sec 1 64 4 0 :=
  ⟨rfl, fun _ _ _ => rfl, rfl, by decide⟩

/-- C5, amended: when the transformation declines for every section AND the
input section headers are already tightly packed with respect to the relayout
rule (cursor starting at the first array entry's offset), a successful plan's
section headers and program headers are identical to the input's, and the
section-header-table start is the offset immediately after the last section.
Verifier-passing files are generally not tightly packed in this sense: their
leading null entry resets the cursor to 0. -/
theorem c5_noop_tight_packing (bytes : List Nat) (phs : List ProgramHeader)
    (shs : List SectionHeader) (ctx : Ctx) (tf : Transformer)
    (res : ComputeShiftsResult) (s0 : SectionHeader)
    (hdecl : ∀ b s c, (tf b s c).1 = none)
    (hhead : shs.head? = some s0)
    (htp : tightly_packed_from s0.sh_offset shs = true)
    (h : compute_shifts bytes phs shs ctx tf = some res) :
    res.section_headers = shs ∧ res.program_headers = phs ∧
      res.section_headers_start = cursor_after s0.sh_offset shs := by
  obtain ⟨uF, hloop, hres⟩ := compute_shifts_elim bytes phs shs ctx tf res s0 hhead h
  have hpinit : upd_pristine phs (OutputProgramHeadersUpdater.new phs) := by
    constructor
    · rfl
    · show (phs.map _).map Prod.fst = _
      rw [List.map_map]
      rfl
  obtain ⟨ho, hv, hpF⟩ :=
    tp_loop tf bytes ctx hdecl phs shs s0.sh_offset _ htp hpinit _ _ _ hloop
  refine ⟨ho, ?_, hv⟩
  rw [into_result_some uF res.program_headers hres]
  exact hpF.1

/-- C5, witness for the amended theorem: a tightly packed two-section file
with one program header spanning both sections relays out to itself. -/
theorem c5_witness :
    ((compute_shifts [] [pheader 100 12] [sec 1 100 10 0, sec 2 110 2 2] ctx64
        tf_decline).getD default).section_headers =
      [sec 1 100 10 0, sec 2 110 2 2] ∧
      ((compute_shifts [] [pheader 100 12] [sec 1 100 10 0, sec 2 110 2 2] ctx64
          tf_decline).getD default).program_headers = [pheader 100 12] ∧
      ((compute_shifts [] [pheader 100 12] [sec 1 100 10 0, sec 2 110 2 2] ctx64
          tf_decline).getD default).section_headers_start = 112 := by
  cases hcs : compute_shifts [] [pheader 100 12] [sec 1 100 10 0, sec 2 110 2 2]
      ctx64 tf_decline with
  | none =>
    have hsome : (compute_shifts [] [pheader 100 12]
        [sec 1 100 10 0, sec 2 110 2 2] ctx64 tf_decline).isSome = true := rfl
    rw [hcs] at hsome
    exact Bool.noConfusion hsome
  | some res =>
    obtain ⟨h1, h2, h3⟩ := c5_noop_tight_packing [] [pheader 100 12]
      [sec 1 100 10 0, sec 2 110 2 2] ctx64 tf_decline res (sec 1 100 10 0)
      (fun _ _ _ => rfl) rfl rfl hcs
    exact ⟨h1, h2, h3.trans rfl⟩

/-- C9: the writer's cloned file header differs from the input header only in
its section-header-table start field (`e_shoff`), all other header fields
being copied verbatim; and every planned section header differs from its
corresponding original only in its offset and size fields, all other
section-header fields being copied through unchanged. -/
theorem c9_writer_frame (h : Header) (st : Nat) (bytes : List Nat)
    (phs : List ProgramHeader) (shs : List SectionHeader) (ctx : Ctx)
    (tf : Transformer) (res : ComputeShiftsResult)
    (hcs : compute_shifts bytes phs shs ctx tf = some res) :
    ((new_header h st).e_shoff = st ∧
      (new_header h st).e_ident = h.e_ident ∧
      (new_header h st).e_type = h.e_type ∧
      (new_header h st).e_machine = h.e_machine ∧
      (new_header h st).e_version = h.e_version ∧
      (new_header h st).e_entry = h.e_entry ∧
      (new_header h st).e_phoff = h.e_phoff ∧
      (new_header h st).e_flags = h.e_flags ∧
      (new_header h st).e_ehsize = h.e_ehsize ∧
      (new_header h st).e_phentsize = h.e_phentsize ∧
      (new_header h st).e_phnum = h.e_phnum ∧
      (new_header h st).e_shentsize = h.e_shentsize ∧
      (new_header h st).e_shnum = h.e_shnum ∧
      (new_header h st).e_shstrndx = h.e_shstrndx) ∧
      ∀ i, i < shs.length →
        (res.section_headers.getD i default).sh_name = (shs.getD i default).sh_name ∧
        (res.section_headers.getD i default).sh_type = (shs.getD i default).sh_type ∧
        (res.section_headers.getD i default).sh_flags = (shs.getD i default).sh_flags ∧
        (res.section_headers.getD i default).sh_addr = (shs.getD i default).sh_addr ∧
        (res.section_headers.getD i default).sh_link = (shs.getD i default).sh_link ∧
        (res.section_headers.getD i default).sh_info = (shs.getD i default).sh_info ∧
        (res.section_headers.getD i default).sh_addralign =
          (shs.getD i default).sh_addralign ∧
        (res.section_headers.getD i default).sh_entsize =
          (shs.getD i default).sh_entsize := by
  refine ⟨⟨rfl, rfl, rfl, rfl, rfl, rfl, rfl, rfl, rfl, rfl, rfl, rfl, rfl, rfl⟩, ?_⟩
  cases shs with
  | nil =>
    intro i hi
    simp at hi
  | cons s0 rest =>
    intro i hi
    obtain ⟨uF, hloop, _⟩ :=
      compute_shifts_elim bytes phs (s0 :: rest) ctx tf res s0 rfl hcs
    obtain ⟨_, _, hidx⟩ :=
      compute_shifts_loop_char tf bytes ctx _ s0.sh_offset _ _ _ _ hloop
    have hout := hidx i hi
    rw [hout]
    exact ⟨rfl, rfl, rfl, rfl, rfl, rfl, rfl, rfl⟩

/-- C9, witness at concrete inputs: the cloned header gets the new table
start 42 and keeps `e_ehsize`; the planned second section (shifted from
offset 15 to 16) keeps its name. -/
theorem c9_witness :
    (new_header hdr196 42).e_shoff = 42 ∧
      (new_header hdr196 42).e_ehsize = 64 ∧
      ({ sec 2 15 3 4 with sh_offset := 16 } : SectionHeader).sh_name =
        (sec 2 15 3 4).sh_name := by
  have hcs : compute_shifts [] [] [sec 1 10 5 0, sec 2 15 3 4] ctx64 tf_decline =
      some { program_headers := [],
             section_headers := [sec 1 10 5 0, { sec 2 15 3 4 with sh_offset := 16 }],
             section_headers_start := 19 } := rfl
  have h9 := c9_writer_frame hdr196 42 [] [] [sec 1 10 5 0, sec 2 15 3 4] ctx64
    tf_decline _ hcs
  exact ⟨h9.1.1, h9.1.2.2.2.2.2.2.2.2.1, (h9.2 1 (by decide)).1⟩

/-! ### Helper lemmas: the verifier never panics on in-bounds regions -/

theorem gap_all_zero_ne_none (bytes : List Nat) (a b : Nat) (hab : a ≤ b)
    (hb : b ≤ bytes.length) : gap_all_zero bytes a b ≠ none := by
  unfold gap_all_zero
  rw [if_pos ⟨hab, hb⟩]
  intro h
  exact Option.noConfusion h

theorem verify_sections_ne_none (bytes : List Nat) :
    ∀ (l : List SectionHeader), (∀ s ∈ l, s.sh_offset ≤ bytes.length) →
      ∀ covered, verify_sections bytes covered l ≠ none := by
  intro l
  induction l with
  | nil =>
    intro _ covered
    simp [verify_sections]
  | cons hd t ih =>
    intro hs covered
    unfold verify_sections
    by_cases h1 : hd.sh_offset < covered
    · rw [if_pos h1]
      simp
    · rw [if_neg h1]
      by_cases h2 : covered < hd.sh_offset
      · rw [if_pos h2]
        cases hg : gap_all_zero bytes covered hd.sh_offset with
        | none =>
          exact absurd hg (gap_all_zero_ne_none bytes covered hd.sh_offset
            (le_of_lt h2) (hs hd (List.mem_cons_self hd t)))
        | some b =>
          cases b with
          | false => simp
          | true => exact ih (fun s hsm => hs s (List.mem_cons_of_mem hd hsm)) _
      · rw [if_neg h2]
        exact ih (fun s hsm => hs s (List.mem_cons_of_mem hd hsm)) _

/-- C6, counterexample.  The claim says the verifier never panics for any
byte buffer and parsed view.  A 64-byte buffer whose header places the
program-header table at offset 100 (with zero entries) drives the gap check
to slice `bytes[64..100]` of a 64-byte buffer — an out-of-range slice index,
i.e. a panic (`none`), not a returned error. -/
theorem c6_counterexample :
    verify_elf_structure (List.replicate 64 0) view_panic ctx64 = none := rfl

/-- C6, amended: provided every region bound the verifier slices up to lies
within the byte buffer (program-header-table offset, each section offset, and
the end of the section-header table), `verify_elf_structure` never panics —
it returns `Ok` or a structured error (each error constructor carries the
offending region's offset/size and the previous region's end, as the source
interpolates into its message) — and whenever it returns an error the modify
pipeline produces no output bytes. -/
theorem c6_verifier_no_panic_and_gating (encH : Header → List Nat)
    (encP : ProgramHeader → List Nat) (encS : SectionHeader → List Nat)
    (chunk : Nat) (bytes : List Nat) (elf : ElfView) (ctx : Ctx) (tf : Transformer)
    (hph : elf.header.e_phoff ≤ bytes.length)
    (hsh : ∀ s ∈ elf.section_headers, s.sh_offset ≤ bytes.length)
    (hshtab : elf.header.e_shoff + elf.header.e_shentsize * elf.header.e_shnum
      ≤ bytes.length) :
    verify_elf_structure bytes elf ctx ≠ none ∧
      ∀ e, verify_elf_structure bytes elf ctx = some (Except.error e) →
        modify_pipeline encH encP encS chunk bytes elf ctx tf = none := by
  have hsect : ∀ covered2, verify_after_sections bytes elf covered2 ≠ none := by
    intro covered2 hnone
    unfold verify_after_sections at hnone
    dsimp only at hnone
    by_cases h1 : elf.header.e_shoff < covered2
    · rw [if_pos h1] at hnone
      exact Option.noConfusion hnone
    · rw [if_neg h1] at hnone
      by_cases h2 : covered2 < elf.header.e_shoff
      · rw [if_pos h2] at hnone
        cases hg : gap_all_zero bytes covered2 elf.header.e_shoff with
        | none =>
          exact absurd hg (gap_all_zero_ne_none bytes covered2 elf.header.e_shoff
            (le_of_lt h2) (by omega))
        | some b =>
          rw [hg] at hnone
          cases b with
          | false => exact Option.noConfusion hnone
          | true =>
            dsimp only at hnone
            cases hg2 : gap_all_zero bytes
                (elf.header.e_shoff + elf.header.e_shentsize * elf.header.e_shnum)
                bytes.length with
            | none =>
              exact absurd hg2 (gap_all_zero_ne_none bytes _ bytes.length hshtab le_rfl)
            | some b2 =>
              rw [hg2] at hnone
              cases b2 with
              | false => exact Option.noConfusion hnone
              | true => exact Option.noConfusion hnone
      · rw [if_neg h2] at hnone
        dsimp only at hnone
        cases hg2 : gap_all_zero bytes
            (elf.header.e_shoff + elf.header.e_shentsize * elf.header.e_shnum)
            bytes.length with
        | none =>
          exact absurd hg2 (gap_all_zero_ne_none bytes _ bytes.length hshtab le_rfl)
        | some b2 =>
          rw [hg2] at hnone
          cases b2 with
          | false => exact Option.noConfusion hnone
          | true => exact Option.noConfusion hnone
  have hafterph : ∀ covered1, verify_after_ph bytes elf covered1 ≠ none := by
    intro covered1 hnone
    unfold verify_after_ph at hnone
    dsimp only at hnone
    by_cases h1 : elf.section_headers.length ≤ 1
    · rw [if_pos h1] at hnone
      exact Option.noConfusion hnone
    · rw [if_neg h1] at hnone
      by_cases h2 : ((elf.section_headers.headD default).sh_offset == 0 &&
          (elf.section_headers.headD default).sh_size == 0) = true
      · rw [if_pos h2] at hnone
        cases hvs : verify_sections bytes covered1 elf.section_headers.tail with
        | none =>
          exact absurd hvs (verify_sections_ne_none bytes elf.section_headers.tail
            (fun x hsm => hsh x (List.mem_of_mem_tail hsm)) covered1)
        | some r =>
          rw [hvs] at hnone
          cases r with
          | error e => exact Option.noConfusion hnone
          | ok covered2 => exact hsect covered2 hnone
      · rw [if_neg h2] at hnone
        exact Option.noConfusion hnone
  constructor
  · intro hnone
    unfold verify_elf_structure at hnone
    dsimp only at hnone
    by_cases h1 : elf.header.e_phoff < ctx.headerSize
    · rw [if_pos h1] at hnone
      exact Option.noConfusion hnone
    · rw [if_neg h1] at hnone
      by_cases h2 : ctx.headerSize < elf.header.e_phoff
      · rw [if_pos h2] at hnone
        cases hg : gap_all_zero bytes ctx.headerSize elf.header.e_phoff with
        | none =>
          exact absurd hg (gap_all_zero_ne_none bytes ctx.headerSize
            elf.header.e_phoff (le_of_lt h2) hph)
        | some b =>
          rw [hg] at hnone
          cases b with
          | false => exact Option.noConfusion hnone
          | true => exact hafterph _ hnone
      · rw [if_neg h2] at hnone
        exact hafterph _ hnone
  · intro e he
    unfold modify_pipeline
    rw [he]

set_option maxRecDepth 10000 in
/-- C6, witness: the amended theorem applied to the concrete 196-byte file,
whose region bounds all lie within the buffer. -/
theorem c6_witness : verify_elf_structure bytes196 view196 ctx64 ≠ none :=
  (c6_verifier_no_panic_and_gating (fun _ => []) (fun _ => []) (fun _ => [])
    16 bytes196 view196 ctx64 tf_decline (by decide) (by decide) (by decide)).1

set_option maxRecDepth 10000 in
/-- C10, evaluation at the failing input.  On the verifier-passing 196-byte
file with the all-decline transformation, the writer's `add_padding` calls are
`(target, cursor)` = (0, 64), (0, 64), (4, 64): the very first padding target
(the planned offset 0 of the null section) is BELOW the write cursor 64 left
by the header, and the cursor is never advanced past section content, so the
claim "every padding target the writer passes is ≥ the current write cursor"
fails on the code (the helper then writes nothing and the output bytes land at
wrong offsets).  The plan-monotonicity part of the claim does hold: each
planned offset is ≥ the previous planned end, which is why the targets here
are non-decreasing among themselves. -/
theorem c10_writer_padding_target_below_cursor :
    (transform_elf_sections (fun _ => List.replicate 64 0)
        (fun _ => List.replicate 56 0) (fun _ => List.replicate 64 0) 16
        bytes196 view196 ctx64 tf_decline).map Prod.snd =
      some [(0, 64), (0, 64), (4, 64)] ∧
      ¬((64 : Nat) ≤ 0) :=
  ⟨rfl, by decide⟩

theorem write_sections_targets (tf : Transformer) (bytes : List Nat) (ctx : Ctx)
    (chunk : Nat) :
    ∀ (ins outs : List SectionHeader) (w : Nat) (out : List Nat) (wF : Nat)
      (log : List (Nat × Nat)),
      write_sections tf bytes ctx chunk ins outs w = some (out, wF, log) →
      log.map Prod.fst = outs.map SectionHeader.sh_offset := by
  intro ins
  induction ins with
  | nil =>
    intro outs w out wF log h
    cases outs with
    | nil =>
      simp only [write_sections, Option.some.injEq, Prod.mk.injEq] at h
      obtain ⟨_, _, h3⟩ := h
      rw [← h3]
      rfl
    | cons o os => exact Option.noConfusion h
  | cons inH inRest ih =>
    intro outs w out wF log h
    cases outs with
    | nil => exact Option.noConfusion h
    | cons outH outRest =>
      simp only [write_sections, Option.bind_eq_some, Option.map_eq_some'] at h
      obtain ⟨verbatim, _, ⟨out', wF', log'⟩, hrec, hr⟩ := h
      simp only [Prod.mk.injEq] at hr
      obtain ⟨_, _, hlog⟩ := hr
      rw [← hlog]
      simp only [List.map_cons]
      rw [ih outRest _ _ _ _ hrec]

/-- C10, amended: for every plan `compute_shifts` returns, the planned section
headers are monotone and non-overlapping in array order (each new offset is ≥
the previous new offset plus new size), the table start equals the last
planned section's offset plus size, and the padding targets the writer passes
to the padding helper are exactly the planned section offsets followed by the
table start — a non-decreasing sequence, but NOT guaranteed to be ≥ the
current write cursor (the helper silently ignores backward targets and the
writer never advances the cursor past section content). -/
theorem c10_plan_monotone_and_targets (encH : Header → List Nat)
    (encP : ProgramHeader → List Nat) (encS : SectionHeader → List Nat)
    (chunk : Nat) (bytes : List Nat) (elf : ElfView) (ctx : Ctx)
    (tf : Transformer) (res : ComputeShiftsResult) (s0 : SectionHeader)
    (hhead : elf.section_headers.head? = some s0)
    (hcs : compute_shifts bytes elf.program_headers elf.section_headers ctx tf =
      some res) :
    (∀ i, i + 1 < res.section_headers.length →
      (res.section_headers.getD i default).sh_offset +
          (res.section_headers.getD i default).sh_size ≤
        (res.section_headers.getD (i + 1) default).sh_offset) ∧
      res.section_headers_start =
        (res.section_headers.getD (res.section_headers.length - 1)
            default).sh_offset +
          (res.section_headers.getD (res.section_headers.length - 1)
            default).sh_size ∧
      ∀ out log,
        transform_elf_sections encH encP encS chunk bytes elf ctx tf =
          some (out, log) →
        log.map Prod.fst =
          res.section_headers.map SectionHeader.sh_offset ++
            [res.section_headers_start] := by
  have hpos : 0 < elf.section_headers.length := by
    cases hshs : elf.section_headers with
    | nil =>
      rw [hshs] at hhead
      exact Option.noConfusion hhead
    | cons a l => simp
  obtain ⟨uF, hloop, _⟩ :=
    compute_shifts_elim bytes elf.program_headers elf.section_headers ctx tf res
      s0 hhead hcs
  obtain ⟨hlen, hcur, hidx⟩ :=
    compute_shifts_loop_char tf bytes ctx elf.section_headers s0.sh_offset _ _ _ _
      hloop
  refine ⟨?_, ?_, ?_⟩
  · intro i hi1
    have hi1' : i + 1 < elf.section_headers.length := by omega
    have hout1 := hidx (i + 1) hi1'
    have hc := cursor_after_take_succ res.section_headers s0.sh_offset i (by omega)
    rw [hout1]
    show _ ≤ relayout_offset _ _
    rw [← hc]
    exact relayout_offset_ge _ _
  · have hlast := cursor_after_take_succ res.section_headers s0.sh_offset
      (res.section_headers.length - 1) (by omega)
    rw [show res.section_headers.length - 1 + 1 = res.section_headers.length by
      omega, List.take_length] at hlast
    rw [hcur, hlast]
  · intro out log htr
    unfold transform_elf_sections at htr
    by_cases hcond : ctx.phSize ≤ 256 ∧ ctx.shSize ≤ 256
    · rw [if_pos hcond] at htr
      rw [hcs] at htr
      dsimp only at htr
      simp only [Option.some_bind] at htr
      by_cases hph0 : ctx.headerSize = elf.header.e_phoff
      · rw [if_pos hph0] at htr
        obtain ⟨⟨ws_out, wF, wsLog⟩, hws, hsome⟩ := Option.bind_eq_some.mp htr
        have hlog : wsLog ++ [(res.section_headers_start, wF)] = log :=
          (Prod.mk.injEq _ _ _ _ |>.mp (Option.some.inj hsome)).2
        rw [← hlog, List.map_append,
          write_sections_targets tf bytes ctx chunk _ _ _ _ _ _ hws]
        rfl
      · rw [if_neg hph0] at htr
        exact Option.noConfusion htr
    · rw [if_neg hcond] at htr
      exact Option.noConfusion htr

set_option maxRecDepth 10000 in
/-- C10, witness for the amended theorem: on the 196-byte file the plan is
`[null at 0, section at 0 size 4]` with table start 4, and the writer's
padding targets are `[0, 0, 4]`. -/
theorem c10_witness :
    (4 : Nat) =
      ([sec 0 0 0 0, { sec 1 64 4 0 with sh_offset := 0 }].getD 1
          default).sh_offset +
        ([sec 0 0 0 0, { sec 1 64 4 0 with sh_offset := 0 }].getD 1
          default).sh_size ∧
      [(0 : Nat), 0, 4] =
        [sec 0 0 0 0,
            { sec 1 64 4 0 with sh_offset := 0 }].map SectionHeader.sh_offset ++
          [4] := by
  have hcs : compute_shifts bytes196 view196.program_headers
      view196.section_headers ctx64 tf_decline =
      some { program_headers := [],
             section_headers := [sec 0 0 0 0, { sec 1 64 4 0 with sh_offset := 0 }],
             section_headers_start := 4 } := rfl
  have h10 := c10_plan_monotone_and_targets (fun _ => List.replicate 64 0)
    (fun _ => List.replicate 56 0) (fun _ => List.replicate 64 0) 16 bytes196
    view196 ctx64 tf_decline _ (sec 0 0 0 0) rfl hcs
  have htr : transform_elf_sections (fun _ => List.replicate 64 0)
      (fun _ => List.replicate 56 0) (fun _ => List.replicate 64 0) 16 bytes196
      view196 ctx64 tf_decline =
      some ((transform_elf_sections (fun _ => List.replicate 64 0)
          (fun _ => List.replicate 56 0) (fun _ => List.replicate 64 0) 16
          bytes196 view196 ctx64 tf_decline).getD default) := rfl
  refine ⟨h10.2.1, ?_⟩
  have h3 := h10.2.2 _ _ htr
  calc [(0 : Nat), 0, 4] =
      (((transform_elf_sections (fun _ => List.replicate 64 0)
          (fun _ => List.replicate 56 0) (fun _ => List.replicate 64 0) 16
          bytes196 view196 ctx64 tf_decline).getD default).2).map Prod.fst := rfl
    _ = _ := h3

end ElfEditor
